import Mathlib

/-!
# OpenTelemetry exporter configuration of the MCP servers

A shallow embedding of the configuration-resolution code of

* `mcp-genmedia-go/otel.go` (the shared variant, namespace `Otel.Shared`), and
* `mcp-genmedia-go/mcp-gemini-go/otel.go` (namespace `Otel.Gemini`),

followed by theorems about it.

Modelling conventions.

* A Go string is modelled by the sequence of its Unicode code points
  (`GoString := List Char`), that is, strings are assumed to be valid UTF-8.
  Where the code counts or cuts bytes (`len(v)`, `v[:6]` in `scrubHeaders`) the model
  works on the UTF-8 bytes of the string (`utf8Bytes`), and the redacted copy that
  `scrubHeaders` returns holds byte strings, because a cut may fall inside a code point.
* The process environment is a function from variable names to values;
  `os.Getenv` returns the empty string for an unset variable, so an unset
  variable and a variable set to the empty string are the same environment.
* A Go `map[string]string` is modelled by the list of its entries (`HeaderMap`),
  read with `lookup` and written with `store`; a well-formed map has pairwise
  distinct keys.
* `net/url.Parse` belongs to the Go standard library. The functions that call it
  take the parser as an argument; `urlParse` is a model of the library function
  that is used where a concrete parser is needed, and where a property depends on
  what the parser returns.
* A call of the shared `initOpenTelemetry` ends in an `Outcome`: a result, a returned
  error, or a panic (the dereference of the nil URL that `url.Parse` returns with an
  error). `otlptrace.New` is an argument, and the process-wide tracer provider is
  passed in and returned.
-/

namespace Otel

/-! ## Strings -/

/-- A Go string, as the sequence of its code points. -/
abbrev GoString := List Char

instance : Coe String GoString := ⟨String.toList⟩

/-- Go `unicode.IsSpace`: the characters `strings.TrimSpace` removes. -/
def isSpace (c : Char) : Bool :=
  let n := c.toNat
  n == 0x09 || n == 0x0A || n == 0x0B || n == 0x0C || n == 0x0D || n == 0x20 ||
  n == 0x85 || n == 0xA0 || n == 0x1680 || (0x2000 ≤ n && n ≤ 0x200A) ||
  n == 0x2028 || n == 0x2029 || n == 0x202F || n == 0x205F || n == 0x3000

/-- Go `strings.TrimLeftFunc(s, unicode.IsSpace)`. -/
def trimLeft : GoString → GoString
  | [] => []
  | c :: cs => if isSpace c then trimLeft cs else c :: cs

/-- Go `strings.TrimRightFunc(s, unicode.IsSpace)`. -/
def trimRight : GoString → GoString
  | [] => []
  | c :: cs => if isSpace c && (trimRight cs).isEmpty then [] else c :: trimRight cs

/-- Go `strings.TrimSpace`. -/
def trimSpace (s : GoString) : GoString := trimRight (trimLeft s)

/-- Go `strings.ToLower`, on the letters `A`..`Z`. The code only compares lower-cased
strings with ASCII constants made of letters other than `i` and `k` (the two ASCII
letters that are the lower case of a non-ASCII character), so the lower-casing of
non-ASCII letters, which this model leaves unchanged, decides no comparison. -/
def toLower (s : GoString) : GoString := s.map Char.toLower

/-- Go `strings.HasPrefix(s, p)`. -/
def hasPrefix : GoString → GoString → Bool
  | _, [] => true
  | [], _ :: _ => false
  | c :: cs, p :: ps => c == p && hasPrefix cs ps

/-- Go `strings.Contains(s, sub)`. -/
def contains : GoString → GoString → Bool
  | [], sub => sub.isEmpty
  | c :: cs, sub => hasPrefix (c :: cs) sub || contains cs sub

/-- A Go string as its bytes. -/
abbrev Bytes := List Nat

/-- The UTF-8 encoding of a code point. -/
def utf8EncodeChar (c : Char) : Bytes :=
  let n := c.toNat
  if n < 0x80 then [n]
  else if n < 0x800 then [0xC0 + n / 0x40, 0x80 + n % 0x40]
  else if n < 0x10000 then [0xE0 + n / 0x1000, 0x80 + n / 0x40 % 0x40, 0x80 + n % 0x40]
  else [0xF0 + n / 0x40000, 0x80 + n / 0x1000 % 0x40, 0x80 + n / 0x40 % 0x40,
    0x80 + n % 0x40]

/-- The bytes of a Go string: Go `len(s)` is `(utf8Bytes s).length` and Go `s[:n]` is
`(utf8Bytes s).take n`. -/
def utf8Bytes : GoString → Bytes
  | [] => []
  | c :: cs => utf8EncodeChar c ++ utf8Bytes cs

/-- First piece and remaining pieces of `strings.Split(s, sep)` for a one-byte `sep`. -/
def splitAux (sep : Char) : GoString → GoString × List GoString
  | [] => ([], [])
  | c :: cs =>
    if c = sep then ([], (splitAux sep cs).1 :: (splitAux sep cs).2)
    else (c :: (splitAux sep cs).1, (splitAux sep cs).2)

/-- Go `strings.Split(s, sep)` for a one-byte separator. -/
def splitOn (sep : Char) (s : GoString) : List GoString :=
  (splitAux sep s).1 :: (splitAux sep s).2

/-- Go `strings.Cut(s, sep)` for a one-byte separator: the text before and after the
first `sep`, or `none` when `s` has no `sep`. -/
def cut (sep : Char) : GoString → Option (GoString × GoString)
  | [] => none
  | c :: cs =>
    if c = sep then some ([], cs)
    else match cut sep cs with
      | some (a, b) => some (c :: a, b)
      | none => none

/-- Go `strings.SplitN(s, sep, 2)` for a one-byte separator. -/
def splitN2 (sep : Char) (s : GoString) : List GoString :=
  match cut sep s with
  | some (a, b) => [a, b]
  | none => [s]

/-- Go `net.JoinHostPort`. -/
def joinHostPort (host port : GoString) : GoString :=
  if contains host ":" then "[" ++ host ++ "]:" ++ port else host ++ ":" ++ port

/-! ## Maps and the environment -/

/-- A Go `map[string]string`, as the list of its entries. -/
abbrev HeaderMap := List (GoString × GoString)

/-- The redacted copy of a header map that `scrubHeaders` builds for the log line: a Go
`map[string]string` whose values are kept as bytes. -/
abbrev RedactedMap := List (GoString × Bytes)

/-- The keys of a map, in the order of its entries. -/
def keys {β : Type} (m : List (GoString × β)) : List GoString := m.map Prod.fst

/-- Go `v, ok := m[k]`. -/
def lookup {β : Type} : List (GoString × β) → GoString → Option β
  | [], _ => none
  | (k, v) :: r, q => if k = q then some v else lookup r q

/-- Go `m[k]`: the empty string when `k` is absent. -/
def index (m : HeaderMap) (k : GoString) : GoString := (lookup m k).getD []

/-- Go `m[k] = v`. -/
def store {β : Type} : List (GoString × β) → GoString → β → List (GoString × β)
  | [], k, v => [(k, v)]
  | (k0, v0) :: r, k, v => if k0 = k then (k0, v) :: r else (k0, v0) :: store r k v

/-- A map written with string literals. -/
def headerMap (l : List (String × String)) : HeaderMap :=
  l.map fun p => (p.1.toList, p.2.toList)

/-- The process environment: `os.Getenv`. -/
abbrev Env := GoString → GoString

/-- The environment in which exactly the listed variables are set. -/
def mkEnv (l : List (String × String)) : Env :=
  fun k => (lookup (headerMap l) k).getD []

/-! ## A model of `net/url.Parse` -/

/-- The fields of Go `net/url.URL` that the code reads, and `Opaque`. -/
structure URL where
  Scheme : GoString
  Opaque : GoString
  Host : GoString
  Path : GoString
deriving DecidableEq, Repr

/-- The unescaping modes of `net/url` that `Parse` uses. -/
inductive Encoding where
  | encodePath
  | encodeHost
  | encodeZone
  | encodeUserPassword
  | encodeFragment
deriving DecidableEq, Repr

/-- Go `net/url.ishex`. -/
def ishex (c : Char) : Bool :=
  ('0' ≤ c && c ≤ '9') || ('a' ≤ c && c ≤ 'f') || ('A' ≤ c && c ≤ 'F')

/-- Go `net/url.unhex`. -/
def unhex (c : Char) : Nat :=
  if '0' ≤ c ∧ c ≤ '9' then c.toNat - 48
  else if 'a' ≤ c ∧ c ≤ 'f' then c.toNat - 97 + 10
  else if 'A' ≤ c ∧ c ≤ 'F' then c.toNat - 65 + 10
  else 0

/-- Go `net/url.shouldEscape(c, encodeHost)`: the ASCII characters a host may not hold. -/
def shouldEscapeHost (c : Char) : Bool :=
  let n := c.toNat
  if c.isAlphanum then false
  else if n == 33 || n == 36 || n == 38 || n == 39 || n == 40 || n == 41 || n == 42 ||
      n == 43 || n == 44 || n == 59 || n == 61 || n == 58 || n == 91 || n == 93 ||
      n == 60 || n == 62 || n == 34 then false
  else if n == 45 || n == 95 || n == 46 || n == 126 then false
  else true

/-- Go `net/url.unescape(s, mode)`; `none` is an error. An escape `%XY` stands for the
byte `XY`, which the model renders as the code point `XY` (the same text for bytes
below `0x80`). -/
def unescape (mode : Encoding) : GoString → Option GoString
  | [] => some []
  | [c] =>
    if c = '%' then none
    else if (mode = .encodeHost ∨ mode = .encodeZone) ∧ c ≠ '+' ∧ c.toNat < 0x80 ∧
        shouldEscapeHost c then none
    else some [c]
  | [c, a] =>
    if c = '%' then none
    else if (mode = .encodeHost ∨ mode = .encodeZone) ∧ c ≠ '+' ∧ c.toNat < 0x80 ∧
        shouldEscapeHost c then none
    else (unescape mode [a]).map fun r => c :: r
  | c :: a :: b :: rest =>
    if c = '%' then
      if ¬ (ishex a ∧ ishex b) then none
      else if mode = .encodeHost ∧ unhex a < 8 ∧ ¬ (a = '2' ∧ b = '5') then none
      else if mode = .encodeZone ∧ ¬ (a = '2' ∧ b = '5') ∧ 16 * unhex a + unhex b ≠ 32 ∧
          shouldEscapeHost (Char.ofNat (16 * unhex a + unhex b)) then none
      else (unescape mode rest).map fun r => Char.ofNat (16 * unhex a + unhex b) :: r
    else if (mode = .encodeHost ∨ mode = .encodeZone) ∧ c ≠ '+' ∧ c.toNat < 0x80 ∧
        shouldEscapeHost c then none
    else (unescape mode (a :: b :: rest)).map fun r => c :: r

/-- The loop of `net/url.getScheme`, at index `i` with `s` left to read. -/
def getSchemeAux (rawURL : GoString) : Nat → GoString → Option (GoString × GoString)
  | _, [] => some ([], rawURL)
  | i, c :: s =>
    if c.isAlpha then getSchemeAux rawURL (i + 1) s
    else if c.isDigit || c == '+' || c == '-' || c == '.' then
      if i = 0 then some ([], rawURL) else getSchemeAux rawURL (i + 1) s
    else if c == ':' then
      if i = 0 then none else some (rawURL.take i, s)
    else some ([], rawURL)

/-- Go `net/url.getScheme`: scheme and rest; `none` is the error "missing protocol scheme". -/
def getScheme (rawURL : GoString) : Option (GoString × GoString) :=
  getSchemeAux rawURL 0 rawURL

/-- Go `net/url.validOptionalPort`. -/
def validOptionalPort : GoString → Bool
  | [] => true
  | c :: rest => c == ':' && rest.all Char.isDigit

/-- Go `strings.Index(s, sub)`, counted in code points. -/
def indexOf (sub : GoString) : GoString → Option Nat
  | [] => if sub.isEmpty then some 0 else none
  | c :: cs =>
    if hasPrefix (c :: cs) sub then some 0
    else (indexOf sub cs).map fun i => i + 1

/-- Go `strings.LastIndex(s, sep)` for a one-byte `sep`, counted in code points. -/
def lastIndex (sep : Char) : GoString → Option Nat
  | [] => none
  | c :: cs =>
    match lastIndex sep cs with
    | some i => some (i + 1)
    | none => if c = sep then some 0 else none

/-- Go `net/url.parseHost`; `none` is an error. -/
def parseHost (host : GoString) : Option GoString :=
  if hasPrefix host "[" then
    match lastIndex ']' host with
    | none => none
    | some i =>
      if ¬ validOptionalPort (host.drop (i + 1)) then none
      else match indexOf "%25" (host.take i) with
        | some zone =>
          match unescape .encodeHost (host.take zone),
              unescape .encodeZone ((host.take i).drop zone),
              unescape .encodeHost (host.drop i) with
          | some host1, some host2, some host3 => some (host1 ++ host2 ++ host3)
          | _, _, _ => none
        | none => unescape .encodeHost host
  else
    match lastIndex ':' host with
    | some i =>
      if ¬ validOptionalPort (host.drop i) then none else unescape .encodeHost host
    | none => unescape .encodeHost host

/-- Go `net/url.validUserinfo`. -/
def validUserinfo (s : GoString) : Bool :=
  s.all fun r =>
    let n := r.toNat
    r.isAlphanum || n == 45 || n == 46 || n == 95 || n == 58 || n == 126 || n == 33 ||
    n == 36 || n == 38 || n == 39 || n == 40 || n == 41 || n == 42 || n == 43 ||
    n == 44 || n == 59 || n == 61 || n == 37 || n == 64

/-- Go `net/url.parseAuthority`, as far as the host is concerned; `none` is an error. -/
def parseAuthority (authority : GoString) : Option GoString :=
  match lastIndex '@' authority with
  | none => parseHost authority
  | some i =>
    match parseHost (authority.drop (i + 1)) with
    | none => none
    | some host =>
      let userinfo := authority.take i
      if ¬ validUserinfo userinfo then none
      else match cut ':' userinfo with
        | none => (unescape .encodeUserPassword userinfo).map fun _ => host
        | some (username, password) =>
          match unescape .encodeUserPassword username,
              unescape .encodeUserPassword password with
          | some _, some _ => some host
          | _, _ => none

/-- Go `net/url.parse(rawURL, false)`: the URL without its fragment. -/
def parse (rawURL : GoString) : Option URL :=
  if rawURL.any (fun c => c.toNat < 0x20 || c.toNat == 0x7f) then none
  else if rawURL = "*" then some (URL.mk [] [] [] "*")
  else match getScheme rawURL with
    | none => none
    | some (scheme0, rest0) =>
      let scheme := toLower scheme0
      -- the query, with its `?`, is cut off
      let rest := match cut '?' rest0 with
        | some (r, _) => r
        | none => rest0
      if ¬ hasPrefix rest "/" ∧ scheme ≠ [] then some (URL.mk scheme rest [] [])
      else if ¬ hasPrefix rest "/" ∧
          contains (match cut '/' rest with | some (seg, _) => seg | none => rest) ":" then
        none
      else if (scheme ≠ [] ∨ ¬ hasPrefix rest "///") ∧ hasPrefix rest "//" then
        let authority0 := rest.drop 2
        let authority := match indexOf "/" authority0 with
          | some i => authority0.take i
          | none => authority0
        let rest1 := match indexOf "/" authority0 with
          | some i => authority0.drop i
          | none => []
        match parseAuthority authority with
        | none => none
        | some host => (unescape .encodePath rest1).map fun path => URL.mk scheme [] host path
      else (unescape .encodePath rest).map fun path => URL.mk scheme [] [] path

/-- A model of Go `net/url.Parse` (Go 1.21): the scheme, host and path of the parsed
URL, or `none` where `Parse` returns an error. -/
def urlParse (rawURL : GoString) : Option URL :=
  match cut '#' rawURL with
  | none => parse rawURL
  | some (u, frag) =>
    match parse u with
    | none => none
    | some url => if frag = [] then some url
      else (unescape .encodeFragment frag).map fun _ => url

/-! ## The shared variant: `mcp-genmedia-go/otel.go` -/

namespace Shared

/-- The function `firstNonEmpty(vals ...string)`. -/
def firstNonEmpty : List GoString → GoString
  | [] => []
  | v :: vals => if trimSpace v ≠ [] then trimSpace v else firstNonEmpty vals

/-- The body of the loop of `parseHeaders` over the comma-separated entries. After the
guard `kv` contains `=`, so `parts` has the two elements the body reads. -/
def parseEntry (headers : HeaderMap) (kv0 : GoString) : HeaderMap :=
  let kv := trimSpace kv0
  if kv = [] ∨ ¬ contains kv "=" then headers
  else match splitN2 '=' kv with
    | [k, v] => store headers (trimSpace k) (trimSpace v)
    | _ => headers

/-- The first part of `parseHeaders`: the explicit header variable. -/
def explicitHeaders (env : Env) : HeaderMap :=
  let h := firstNonEmpty
    [env "OTEL_EXPORTER_OTLP_TRACES_HEADERS", env "OTEL_EXPORTER_OTLP_HEADERS"]
  if h ≠ [] then (splitOn ',' h).foldl parseEntry [] else []

/-- One of the four fallback blocks of `parseHeaders`: `key` is taken from the
variable `var` unless the map has it already. -/
def fallback (env : Env) (key var : GoString) (headers : HeaderMap) : HeaderMap :=
  if (lookup headers key).isNone then
    if trimSpace (env var) ≠ [] then store headers key (trimSpace (env var)) else headers
  else headers

/-- The function `parseHeaders()`. -/
def parseHeaders (env : Env) : HeaderMap :=
  let headers := explicitHeaders env
  let headers := fallback env "space_id" "ARIZE_SPACE_ID" headers
  let headers := fallback env "api_key" "ARIZE_API_KEY" headers
  let headers := fallback env "arize-interface" "ARIZE_INTERFACE" headers
  fallback env "arize-project" "ARIZE_PROJECT_NAME" headers

/-- The value `scrubHeaders` stores for the entry `k`, `v`, as bytes: `len(v) > 6` and
`v[:6] + "…"` count and cut bytes. -/
def scrubValue (k v : GoString) : Bytes :=
  if k = "api_key" ∨ contains (toLower k) "auth" then utf8Bytes "****"
  else if k = "space_id" then
    if (utf8Bytes v).length > 6 then (utf8Bytes v).take 6 ++ utf8Bytes "…"
    else utf8Bytes "****"
  else utf8Bytes v

/-- The function `scrubHeaders(h)`. -/
def scrubHeaders (h : HeaderMap) : RedactedMap :=
  h.foldl (fun out kv => store out kv.1 (scrubValue kv.1 kv.2)) []

end Shared

/-! ## The variant of `mcp-gemini-go/otel.go` -/

namespace Gemini

/-- The function `envBool(keys ...string)`. -/
def envBool (env : Env) : List GoString → Bool
  | [] => false
  | k :: keys =>
    let v := toLower (trimSpace (env k))
    if v = "1" ∨ v = "true" ∨ v = "yes" then true else envBool env keys

/-- The function `firstNonEmpty(keys ...string)`. -/
def firstNonEmpty (env : Env) : List GoString → GoString
  | [] => []
  | k :: keys => if trimSpace (env k) ≠ [] then trimSpace (env k) else firstNonEmpty env keys

/-- The body of the loop of `parseHeaders` over the comma-separated entries; the match
on two parts is the test `len(parts) == 2`. -/
def parseEntry (out : HeaderMap) (kv0 : GoString) : HeaderMap :=
  let kv := trimSpace kv0
  if kv = [] then out
  else match splitN2 '=' kv with
    | [k, v] => store out (trimSpace k) (trimSpace v)
    | _ => out

/-- The function `parseHeaders()`. -/
def parseHeaders (env : Env) : HeaderMap :=
  let h := firstNonEmpty env ["OTEL_EXPORTER_OTLP_TRACES_HEADERS", "OTEL_EXPORTER_OTLP_HEADERS"]
  let out := (splitOn ',' h).foldl parseEntry []
  if h ≠ [] ∧ out.length > 0 then out
  else
    let sid := trimSpace (env "ARIZE_SPACE_ID")
    let key := trimSpace (env "ARIZE_API_KEY")
    if sid ≠ [] ∧ key ≠ [] then
      [("space_id", sid), ("api_key", key), ("arize-space-id", sid),
       ("authorization", key), ("arize-interface", "go-mcp")]
    else []

/-- The source `type httpTarget struct`. -/
structure httpTarget where
  endpoint : GoString
  path : GoString
  insecure : Bool
deriving DecidableEq, Repr

/-- The endpoint value `raw` that `parseHTTPSettings` and `buildGRPCExporter` read:
`firstNonEmpty("OTEL_EXPORTER_OTLP_TRACES_ENDPOINT", "OTEL_EXPORTER_OTLP_ENDPOINT")`. -/
def rawEndpoint (env : Env) : GoString :=
  firstNonEmpty env ["OTEL_EXPORTER_OTLP_TRACES_ENDPOINT", "OTEL_EXPORTER_OTLP_ENDPOINT"]

/-- The flag `insecure` that `parseHTTPSettings` and `buildGRPCExporter` read:
`envBool("OTEL_EXPORTER_OTLP_TRACES_INSECURE", "OTEL_EXPORTER_OTLP_INSECURE")`. -/
def insecureFlag (env : Env) : Bool :=
  envBool env ["OTEL_EXPORTER_OTLP_TRACES_INSECURE", "OTEL_EXPORTER_OTLP_INSECURE"]

/-- The function `parseHTTPSettings()`, with the URL parser it calls as an argument. -/
def parseHTTPSettings (urlParse : GoString → Option URL) (env : Env) : httpTarget :=
  let raw := rawEndpoint env
  let insecure := insecureFlag env
  -- `def` in the source
  let def0 : httpTarget := ⟨"otlp.arize.com", "/v1/traces", false⟩
  if raw = [] then def0
  else if hasPrefix raw "http://" ∨ hasPrefix raw "https://" then
    match urlParse raw with
    | none => def0
    | some u =>
      let host := u.Host
      let p : GoString := if u.Path = [] ∨ u.Path = "/" then "/v1/traces" else u.Path
      let insecure := if u.Scheme = "http" then true else insecure
      ⟨host, p, insecure⟩
  else
    let host : GoString :=
      if ¬ contains raw ":" then
        if insecure then joinHostPort raw "4318" else joinHostPort raw "443"
      else raw
    ⟨host, "/v1/traces", insecure⟩

/-- The protocol override `p` that `protocol()` reads: the first non-blank of
`OTEL_EXPORTER_OTLP_TRACES_PROTOCOL` and `OTEL_EXPORTER_OTLP_PROTOCOL`, trimmed and
lower-cased. -/
def protocolOverride (env : Env) : GoString :=
  toLower (trimSpace (firstNonEmpty env
    ["OTEL_EXPORTER_OTLP_TRACES_PROTOCOL", "OTEL_EXPORTER_OTLP_PROTOCOL"]))

/-- The function `protocol()`. -/
def protocol (env : Env) : GoString :=
  let p := protocolOverride env
  if p = [] then "http/protobuf" else p

/-- The options an exporter is constructed with. -/
inductive ExporterConfig where
  | http (endpoint urlPath : GoString) (headers : HeaderMap) (insecure : Bool)
  | grpc (endpoint : GoString) (headers : HeaderMap) (insecure : Bool)
deriving DecidableEq, Repr

/-- Whether the exporter is the HTTP one. -/
def ExporterConfig.isHTTP : ExporterConfig → Bool
  | .http _ _ _ _ => true
  | .grpc _ _ _ => false

/-- The function `buildHTTPExporter(ctx, hdr)`: the options given to `otlptracehttp.New`. -/
def buildHTTPExporter (urlParse : GoString → Option URL) (env : Env) (hdr : HeaderMap) :
    ExporterConfig :=
  let t := parseHTTPSettings urlParse env
  .http t.endpoint t.path hdr t.insecure

/-- The function `buildGRPCExporter(ctx, hdr)`: the options given to `otlptracegrpc.New`. -/
def buildGRPCExporter (urlParse : GoString → Option URL) (env : Env) (hdr : HeaderMap) :
    ExporterConfig :=
  let raw := rawEndpoint env
  let hostport : GoString :=
    if hasPrefix raw "http://" ∨ hasPrefix raw "https://" then
      match urlParse raw with
      | some u =>
        if ¬ contains u.Host ":" then
          if u.Scheme = "http" then joinHostPort u.Host "4317" else joinHostPort u.Host "443"
        else u.Host
      | none => raw
    else raw
  let hostport : GoString := if hostport = [] then "localhost:4317" else hostport
  let insecure := insecureFlag env
  .grpc hostport hdr insecure

/-- The function `InitTracerProvider(ctx, service, version)`: the exporter it constructs. -/
def InitTracerProvider (urlParse : GoString → Option URL) (env : Env) : ExporterConfig :=
  let hdr := parseHeaders env
  let proto := protocol env
  if proto = "http" ∨ proto = "http/protobuf" ∨ proto = "http_proto" ∨
      proto = "http+protobuf" then
    buildHTTPExporter urlParse env hdr
  else
    -- treat anything else as gRPC
    buildGRPCExporter urlParse env hdr

end Gemini


/-! ## The shared variant: `initOpenTelemetry` -/

/-- Go `strings.TrimPrefix(s, p)`. -/
def trimPrefix (s p : GoString) : GoString :=
  if hasPrefix s p then s.drop p.length else s

namespace Shared

/-- The options `initOpenTelemetry` gives to `otlptracehttp.NewClient`
(`WithEndpoint`, `WithURLPath`, `WithHeaders`) or to `otlptracegrpc.NewClient`
(`WithEndpoint`, `WithHeaders`); both clients use TLS. -/
inductive ClientOptions where
  | http (endpoint urlPath : GoString) (headers : HeaderMap)
  | grpc (endpoint : GoString) (headers : HeaderMap)
deriving DecidableEq, Repr

/-- How a call of `initOpenTelemetry` ends: it returns the shutdown function of the
provider built on a client, it returns an error, or it panics on a nil pointer. -/
inductive Outcome where
  | ok (client : ClientOptions)
  | error (msg : GoString)
  | panic
deriving DecidableEq, Repr

/-- The protocol override that `initOpenTelemetry` reads: the first non-blank of
`OTEL_EXPORTER_OTLP_TRACES_PROTOCOL` and `OTEL_EXPORTER_OTLP_PROTOCOL`, trimmed and
lower-cased. -/
def protocolOverride (env : Env) : GoString :=
  toLower (firstNonEmpty
    [env "OTEL_EXPORTER_OTLP_TRACES_PROTOCOL", env "OTEL_EXPORTER_OTLP_PROTOCOL"])

/-- The value `endpoint` that `initOpenTelemetry` reads: the first non-blank of
`OTEL_EXPORTER_OTLP_TRACES_ENDPOINT` and `OTEL_EXPORTER_OTLP_ENDPOINT`, trimmed. -/
def rawEndpoint (env : Env) : GoString :=
  firstNonEmpty
    [env "OTEL_EXPORTER_OTLP_TRACES_ENDPOINT", env "OTEL_EXPORTER_OTLP_ENDPOINT"]

/-- The `switch proto` of `initOpenTelemetry`: the client that is constructed from the
protocol, the endpoint and the headers; `none` when the code dereferences the nil URL
that `url.Parse` returns with an error (`u, _ := url.Parse(endpoint)`, then `u.Host`). -/
def newClient (urlParse : GoString → Option URL) (env : Env) (headers : HeaderMap) :
    Option ClientOptions :=
  let proto0 := protocolOverride env
  let proto : GoString :=
    if proto0 = [] ∨ hasPrefix proto0 "http" then "http/protobuf" else proto0
  let endpoint := rawEndpoint env
  if proto = "http" ∨ proto = "http/protobuf" then
    let u : Option URL :=
      if endpoint = [] then some (URL.mk "https" [] "otlp.arize.com" "/v1/traces")
      else match urlParse endpoint with
        | none => none
        | some u =>
          if u.Host = [] then some (URL.mk "https" [] "otlp.arize.com" "/v1/traces")
          else some (URL.mk (if u.Scheme = [] then "https" else u.Scheme) u.Opaque
            u.Host (if u.Path = [] then "/v1/traces" else u.Path))
    match u with
    | none => none
    | some u => some (.http u.Host (trimPrefix u.Path "/") headers)
  else
    let hostPort : GoString :=
      if endpoint = [] ∨ hasPrefix endpoint "http" then "otlp.arize.com:443"
      else endpoint
    some (.grpc hostPort headers)

/-- The function `initOpenTelemetry(serviceName, serviceVersion)`. The arguments are the
URL parser (`none` is the result `nil, err`), `otlptrace.New` (which returns the text of
an error or `none`), the environment and the process-wide tracer provider, here the
client of its exporter; the result is the outcome and the tracer provider afterwards. -/
def initOpenTelemetry (urlParse : GoString → Option URL)
    (otlptraceNew : ClientOptions → Option GoString) (env : Env)
    (provider : Option ClientOptions) : Outcome × Option ClientOptions :=
  let headers := parseHeaders env
  if index headers "space_id" = [] ∨ index headers "api_key" = [] then
    (.error "missing ARIZE creds: space_id or api_key", provider)
  else
    match newClient urlParse env headers with
    | none => (.panic, provider)
    | some c =>
      match otlptraceNew c with
      | some err => (.error ("failed to create OTLP exporter: " ++ err), provider)
      | none => (.ok c, some c)

end Shared

/-! ## The header variable as the specification words it -/

/-- One entry of the header variable as the specification words it: an entry that is
empty after trimming or that contains no `=` is skipped; any other entry maps the
trimmed text before its first `=` to the trimmed text after it. -/
def specHeaderEntry (e : GoString) : Option (GoString × GoString) :=
  if trimSpace e = [] then none
  else match cut '=' e with
    | none => none
    | some (a, b) => some (trimSpace a, trimSpace b)

/-- The entries of a header variable as the specification words them: the value is
split on commas and the malformed entries are skipped. -/
def specHeaderEntries (value : GoString) : List (GoString × GoString) :=
  (splitOn ',' value).filterMap specHeaderEntry

/-- The map of a header variable as the specification words it: a later entry
replaces an earlier one with the same key. -/
def specHeaders (value : GoString) (k : GoString) : Option GoString :=
  lookup (specHeaderEntries value).reverse k

/-- The value of the explicit header variable: that of
`OTEL_EXPORTER_OTLP_TRACES_HEADERS` unless it is blank, else that of
`OTEL_EXPORTER_OTLP_HEADERS`. -/
def explicitHeaderValue (env : Env) : GoString :=
  if trimSpace (env "OTEL_EXPORTER_OTLP_TRACES_HEADERS") ≠ [] then
    env "OTEL_EXPORTER_OTLP_TRACES_HEADERS"
  else env "OTEL_EXPORTER_OTLP_HEADERS"

/-! ## Strings: lemmas -/

theorem trimLeft_eq_nil_of_space (w : GoString) (hw : ∀ c ∈ w, isSpace c = true) :
    trimLeft w = [] := by
  induction w with
  | nil => rfl
  | cons c cs ih =>
    have hc : isSpace c = true := hw c (List.mem_cons_self _ _)
    have hcs : ∀ d ∈ cs, isSpace d = true := fun d hd => hw d (List.mem_cons_of_mem _ hd)
    simp [trimLeft, hc, ih hcs]

theorem trimRight_eq_nil_of_space (w : GoString) (hw : ∀ c ∈ w, isSpace c = true) :
    trimRight w = [] := by
  induction w with
  | nil => rfl
  | cons c cs ih =>
    have hc : isSpace c = true := hw c (List.mem_cons_self _ _)
    have hcs : ∀ d ∈ cs, isSpace d = true := fun d hd => hw d (List.mem_cons_of_mem _ hd)
    simp [trimRight, hc, ih hcs]

theorem trimLeft_space_append (w x : GoString) (hw : ∀ c ∈ w, isSpace c = true) :
    trimLeft (w ++ x) = trimLeft x := by
  induction w with
  | nil => rfl
  | cons c cs ih =>
    have hc : isSpace c = true := hw c (List.mem_cons_self _ _)
    have hcs : ∀ d ∈ cs, isSpace d = true := fun d hd => hw d (List.mem_cons_of_mem _ hd)
    simp [trimLeft, hc, ih hcs]

theorem trimRight_append_space (x w : GoString) (hw : ∀ c ∈ w, isSpace c = true) :
    trimRight (x ++ w) = trimRight x := by
  induction x with
  | nil => simpa [trimRight] using trimRight_eq_nil_of_space w hw
  | cons c cs ih => simp [trimRight, ih]

theorem space_of_trimLeft_eq_nil (x : GoString) (h : trimLeft x = []) :
    ∀ c ∈ x, isSpace c = true := by
  induction x with
  | nil => simp
  | cons c cs ih =>
    by_cases hc : isSpace c = true
    · simp only [trimLeft, hc, if_true] at h
      intro d hd
      rcases List.mem_cons.mp hd with rfl | hd
      · exact hc
      · exact ih h d hd
    · simp [trimLeft, hc] at h

theorem trimLeft_append_of_ne_nil (x w : GoString) (h : trimLeft x ≠ []) :
    trimLeft (x ++ w) = trimLeft x ++ w := by
  induction x with
  | nil => simp [trimLeft] at h
  | cons c cs ih =>
    by_cases hc : isSpace c = true
    · simp only [trimLeft, hc, if_true] at h
      simp [trimLeft, hc, ih h]
    · simp [trimLeft, hc]

theorem trimSpace_space_append (w x : GoString) (hw : ∀ c ∈ w, isSpace c = true) :
    trimSpace (w ++ x) = trimSpace x := by
  unfold trimSpace
  rw [trimLeft_space_append w x hw]

theorem trimSpace_append_space (x w : GoString) (hw : ∀ c ∈ w, isSpace c = true) :
    trimSpace (x ++ w) = trimSpace x := by
  unfold trimSpace
  by_cases h : trimLeft x = []
  · have hx := space_of_trimLeft_eq_nil x h
    have hxw : ∀ c ∈ x ++ w, isSpace c = true := by
      intro c hc
      rcases List.mem_append.mp hc with hc | hc
      · exact hx c hc
      · exact hw c hc
    rw [trimLeft_eq_nil_of_space _ hxw, h]
  · rw [trimLeft_append_of_ne_nil x w h, trimRight_append_space _ w hw]

theorem trimLeft_decomp (s : GoString) :
    ∃ w : GoString, (∀ c ∈ w, isSpace c = true) ∧ s = w ++ trimLeft s := by
  induction s with
  | nil => exact ⟨[], by simp, rfl⟩
  | cons c cs ih =>
    by_cases hc : isSpace c = true
    · obtain ⟨w, hw, e⟩ := ih
      refine ⟨c :: w, ?_, ?_⟩
      · intro d hd
        rcases List.mem_cons.mp hd with rfl | hd
        · exact hc
        · exact hw d hd
      · simp only [trimLeft, hc, if_true, List.cons_append]
        rw [← e]
    · exact ⟨[], by simp, by simp [trimLeft, hc]⟩

theorem trimRight_decomp (s : GoString) :
    ∃ w : GoString, (∀ c ∈ w, isSpace c = true) ∧ s = trimRight s ++ w := by
  induction s with
  | nil => exact ⟨[], by simp, rfl⟩
  | cons c cs ih =>
    obtain ⟨w, hw, e⟩ := ih
    by_cases hc : (isSpace c && (trimRight cs).isEmpty) = true
    · refine ⟨c :: cs, ?_, by simp [trimRight, hc]⟩
      have h1 : isSpace c = true := by
        cases h : isSpace c
        · rw [h] at hc
          simp at hc
        · rfl
      have h2 : trimRight cs = [] := by
        cases h : trimRight cs with
        | nil => rfl
        | cons a b =>
          rw [h] at hc
          simp at hc
      rw [h2] at e
      intro d hd
      rcases List.mem_cons.mp hd with rfl | hd
      · exact h1
      · rw [e] at hd
        exact hw d hd
    · refine ⟨w, hw, ?_⟩
      have hf : (isSpace c && (trimRight cs).isEmpty) = false := by
        cases h : (isSpace c && (trimRight cs).isEmpty)
        · rfl
        · exact absurd h hc
      have ht : trimRight (c :: cs) = c :: trimRight cs := by
        simp [trimRight, hf]
      rw [ht, List.cons_append, ← e]

theorem trimSpace_decomp (s : GoString) :
    ∃ w1 w2 : GoString, (∀ c ∈ w1, isSpace c = true) ∧ (∀ c ∈ w2, isSpace c = true) ∧
      s = w1 ++ (trimSpace s ++ w2) := by
  obtain ⟨w1, hw1, e1⟩ := trimLeft_decomp s
  obtain ⟨w2, hw2, e2⟩ := trimRight_decomp (trimLeft s)
  refine ⟨w1, w2, hw1, hw2, ?_⟩
  unfold trimSpace
  rw [← e2, ← e1]

theorem trimLeft_head (s : GoString) (c : Char) (h : (trimLeft s).head? = some c) :
    isSpace c = false := by
  induction s with
  | nil => simp [trimLeft] at h
  | cons d ds ih =>
    by_cases hd : isSpace d = true
    · simp only [trimLeft, hd, if_true] at h
      exact ih h
    · simp only [trimLeft, hd] at h
      simp only [Bool.false_eq_true, if_false, List.head?_cons, Option.some.injEq] at h
      rw [← h]
      simpa using hd

theorem trimRight_head (s : GoString) (c : Char) (h : (trimRight s).head? = some c) :
    s.head? = some c := by
  cases s with
  | nil => simp [trimRight] at h
  | cons d ds =>
    by_cases hd : (isSpace d && (trimRight ds).isEmpty) = true
    · simp [trimRight, hd] at h
    · have hf : (isSpace d && (trimRight ds).isEmpty) = false := by
        cases hb : (isSpace d && (trimRight ds).isEmpty)
        · rfl
        · exact absurd hb hd
      simp only [trimRight, hf] at h
      simpa using h

theorem trimRight_getLast (s : GoString) (c : Char) (h : (trimRight s).getLast? = some c) :
    isSpace c = false := by
  induction s with
  | nil => simp [trimRight] at h
  | cons d ds ih =>
    by_cases hd : (isSpace d && (trimRight ds).isEmpty) = true
    · simp [trimRight, hd] at h
    · have hf : (isSpace d && (trimRight ds).isEmpty) = false := by
        cases hb : (isSpace d && (trimRight ds).isEmpty)
        · rfl
        · exact absurd hb hd
      have ht : trimRight (d :: ds) = d :: trimRight ds := by
        simp [trimRight, hf]
      rw [ht] at h
      cases hr : trimRight ds with
      | nil =>
        rw [hr] at h hf
        simp only [List.getLast?_singleton, Option.some.injEq] at h
        rw [← h]
        simpa using hf
      | cons a b =>
        rw [hr, List.getLast?_cons_cons] at h
        rw [hr] at ih
        exact ih h

theorem trimSpace_head (s : GoString) (c : Char) (h : (trimSpace s).head? = some c) :
    isSpace c = false :=
  trimLeft_head s c (trimRight_head _ c h)

theorem trimSpace_getLast (s : GoString) (c : Char) (h : (trimSpace s).getLast? = some c) :
    isSpace c = false :=
  trimRight_getLast _ c h

theorem cut_cons (sep c : Char) (cs : GoString) :
    cut sep (c :: cs)
      = if c = sep then some ([], cs) else (cut sep cs).map fun p => (c :: p.1, p.2) := by
  rw [cut]
  by_cases hc : c = sep
  · rw [if_pos hc, if_pos hc]
  · rw [if_neg hc, if_neg hc]
    cases cut sep cs with
    | none => rfl
    | some p => rfl

theorem cut_eq_none_of_space (sep : Char) (hsep : isSpace sep = false) (w : GoString)
    (hw : ∀ c ∈ w, isSpace c = true) : cut sep w = none := by
  induction w with
  | nil => rfl
  | cons c cs ih =>
    have hc : isSpace c = true := hw c (List.mem_cons_self _ _)
    have hcs : ∀ d ∈ cs, isSpace d = true := fun d hd => hw d (List.mem_cons_of_mem _ hd)
    have hne : ¬ c = sep := by
      intro h
      rw [h, hsep] at hc
      cases hc
    rw [cut_cons, if_neg hne, ih hcs]
    rfl

theorem cut_space_append (sep : Char) (hsep : isSpace sep = false) (w x : GoString)
    (hw : ∀ c ∈ w, isSpace c = true) :
    cut sep (w ++ x) = (cut sep x).map fun p => (w ++ p.1, p.2) := by
  induction w with
  | nil =>
    rw [List.nil_append]
    cases cut sep x <;> rfl
  | cons c cs ih =>
    have hc : isSpace c = true := hw c (List.mem_cons_self _ _)
    have hcs : ∀ d ∈ cs, isSpace d = true := fun d hd => hw d (List.mem_cons_of_mem _ hd)
    have hne : ¬ c = sep := by
      intro h
      rw [h, hsep] at hc
      cases hc
    rw [List.cons_append, cut_cons, if_neg hne, ih hcs]
    cases cut sep x <;> rfl

theorem cut_append_space (sep : Char) (hsep : isSpace sep = false) (x w : GoString)
    (hw : ∀ c ∈ w, isSpace c = true) :
    cut sep (x ++ w) = (cut sep x).map fun p => (p.1, p.2 ++ w) := by
  induction x with
  | nil =>
    rw [List.nil_append, cut_eq_none_of_space sep hsep w hw]
    rfl
  | cons c cs ih =>
    rw [List.cons_append, cut_cons, cut_cons, ih]
    by_cases hc : c = sep
    · rw [if_pos hc, if_pos hc]
      rfl
    · rw [if_neg hc, if_neg hc]
      cases cut sep cs <;> rfl

theorem contains_singleton (c : Char) (s : GoString) :
    contains s [c] = (cut c s).isSome := by
  induction s with
  | nil => rfl
  | cons d ds ih =>
    rw [cut_cons]
    by_cases hd : d = c
    · simp [contains, hasPrefix, hd]
    · rw [if_neg hd]
      simp only [contains, hasPrefix, ih]
      cases cut c ds <;> simp [hd]

theorem specHeaderEntry_eq (e : GoString) :
    specHeaderEntry e =
      if trimSpace e = [] then none
      else match cut '=' (trimSpace e) with
        | none => none
        | some (a, b) => some (trimSpace a, trimSpace b) := by
  obtain ⟨w1, w2, hw1, hw2, he⟩ := trimSpace_decomp e
  have hsep : isSpace '=' = false := by decide
  have hcut : cut '=' e
      = (cut '=' (trimSpace e)).map fun p => (w1 ++ p.1, p.2 ++ w2) := by
    conv_lhs => rw [he]
    rw [cut_space_append '=' hsep w1 _ hw1, cut_append_space '=' hsep _ w2 hw2]
    cases cut '=' (trimSpace e) <;> rfl
  unfold specHeaderEntry
  by_cases ht : trimSpace e = []
  · rw [if_pos ht, if_pos ht]
  · rw [if_neg ht, if_neg ht, hcut]
    cases h : cut '=' (trimSpace e) with
    | none => rfl
    | some p =>
      obtain ⟨a, b⟩ := p
      simp only [Option.map_some']
      rw [trimSpace_space_append w1 a hw1, trimSpace_append_space b w2 hw2]

theorem splitAux_space (sep : Char) (hsep : isSpace sep = false) (w : GoString)
    (hw : ∀ c ∈ w, isSpace c = true) : splitAux sep w = (w, []) := by
  induction w with
  | nil => rfl
  | cons c cs ih =>
    have hc : isSpace c = true := hw c (List.mem_cons_self _ _)
    have hcs : ∀ d ∈ cs, isSpace d = true := fun d hd => hw d (List.mem_cons_of_mem _ hd)
    have hne : ¬ c = sep := by
      intro h
      rw [h, hsep] at hc
      cases hc
    rw [splitAux, if_neg hne, ih hcs]

theorem splitAux_space_append (sep : Char) (hsep : isSpace sep = false) (w x : GoString)
    (hw : ∀ c ∈ w, isSpace c = true) :
    splitAux sep (w ++ x) = (w ++ (splitAux sep x).1, (splitAux sep x).2) := by
  induction w with
  | nil => rfl
  | cons c cs ih =>
    have hc : isSpace c = true := hw c (List.mem_cons_self _ _)
    have hcs : ∀ d ∈ cs, isSpace d = true := fun d hd => hw d (List.mem_cons_of_mem _ hd)
    have hne : ¬ c = sep := by
      intro h
      rw [h, hsep] at hc
      cases hc
    rw [List.cons_append, splitAux, if_neg hne, ih hcs]
    rfl

theorem splitAux_append_space (sep : Char) (hsep : isSpace sep = false) (x w : GoString)
    (hw : ∀ c ∈ w, isSpace c = true) :
    ((splitAux sep (x ++ w)).1 = (splitAux sep x).1 ∨
      (splitAux sep (x ++ w)).1 = (splitAux sep x).1 ++ w) ∧
    (splitAux sep (x ++ w)).2.map trimSpace = (splitAux sep x).2.map trimSpace := by
  induction x with
  | nil =>
    rw [List.nil_append, splitAux_space sep hsep w hw]
    exact ⟨Or.inr rfl, rfl⟩
  | cons c cs ih =>
    obtain ⟨ih1, ih2⟩ := ih
    have hfirst : trimSpace (splitAux sep (cs ++ w)).1 = trimSpace (splitAux sep cs).1 := by
      rcases ih1 with h | h
      · rw [h]
      · rw [h, trimSpace_append_space _ w hw]
    by_cases hc : c = sep
    · rw [List.cons_append, splitAux, splitAux, if_pos hc, if_pos hc]
      refine ⟨Or.inl rfl, ?_⟩
      simp only [List.map_cons, hfirst, ih2]
    · rw [List.cons_append, splitAux, splitAux, if_neg hc, if_neg hc]
      refine ⟨?_, ih2⟩
      rcases ih1 with h | h
      · exact Or.inl (by simp only [h])
      · exact Or.inr (by simp only [h, List.cons_append])

theorem map_trimSpace_splitOn (sep : Char) (hsep : isSpace sep = false) (s : GoString) :
    (splitOn sep (trimSpace s)).map trimSpace = (splitOn sep s).map trimSpace := by
  obtain ⟨w1, w2, hw1, hw2, he⟩ := trimSpace_decomp s
  have h1 : (splitOn sep (trimSpace s ++ w2)).map trimSpace
      = (splitOn sep (trimSpace s)).map trimSpace := by
    obtain ⟨ha, hb⟩ := splitAux_append_space sep hsep (trimSpace s) w2 hw2
    unfold splitOn
    simp only [List.map_cons, hb]
    rcases ha with h | h
    · rw [h]
    · rw [h, trimSpace_append_space _ w2 hw2]
  have h2 : (splitOn sep (w1 ++ (trimSpace s ++ w2))).map trimSpace
      = (splitOn sep (trimSpace s ++ w2)).map trimSpace := by
    unfold splitOn
    rw [splitAux_space_append sep hsep w1 _ hw1]
    simp only [List.map_cons, trimSpace_space_append w1 _ hw1]
  conv_rhs => rw [he]
  rw [h2, h1]

theorem specHeaderEntry_congr (e1 e2 : GoString) (h : trimSpace e1 = trimSpace e2) :
    specHeaderEntry e1 = specHeaderEntry e2 := by
  rw [specHeaderEntry_eq e1, specHeaderEntry_eq e2, h]

theorem filterMap_specHeaderEntry_congr (l1 l2 : List GoString)
    (h : l1.map trimSpace = l2.map trimSpace) :
    l1.filterMap specHeaderEntry = l2.filterMap specHeaderEntry := by
  induction l1 generalizing l2 with
  | nil =>
    cases l2 with
    | nil => rfl
    | cons b l2 => simp at h
  | cons a l1 ih =>
    cases l2 with
    | nil => simp at h
    | cons b l2 =>
      simp only [List.map_cons, List.cons.injEq] at h
      simp only [List.filterMap_cons, specHeaderEntry_congr a b h.1, ih l2 h.2]

theorem specHeaderEntries_trimSpace (s : GoString) :
    specHeaderEntries (trimSpace s) = specHeaderEntries s := by
  unfold specHeaderEntries
  exact filterMap_specHeaderEntry_congr _ _ (map_trimSpace_splitOn ',' (by decide) s)

theorem specHeaders_trimSpace (s k : GoString) :
    specHeaders (trimSpace s) k = specHeaders s k := by
  unfold specHeaders
  rw [specHeaderEntries_trimSpace]

theorem specHeaderEntries_nil : specHeaderEntries [] = [] := by decide

/-! ## Maps: lemmas -/

theorem lookup_store (m : HeaderMap) (k v q : GoString) :
    lookup (store m k v) q = if k = q then some v else lookup m q := by
  induction m with
  | nil => simp [store, lookup]
  | cons e r ih =>
    obtain ⟨k0, v0⟩ := e
    by_cases h0 : k0 = k
    · subst h0
      by_cases hq : k0 = q <;> simp [store, lookup, hq]
    · by_cases hq : k0 = q
      · subst hq
        have : ¬ k = k0 := fun h => h0 h.symm
        simp [store, lookup, h0, this]
      · simp [store, lookup, h0, hq, ih]

theorem store_of_not_mem {β : Type} (m : List (GoString × β)) (k : GoString) (v : β)
    (hk : k ∉ keys m) :
    store m k v = m ++ [(k, v)] := by
  induction m with
  | nil => simp [store]
  | cons e r ih =>
    obtain ⟨k0, v0⟩ := e
    have h0 : ¬ k0 = k := by
      intro h
      apply hk
      rw [← h]
      exact List.mem_cons_self k0 (keys r)
    have hr : k ∉ keys r := by
      intro h
      apply hk
      simp only [keys, List.map_cons, List.mem_cons]
      exact Or.inr h
    simp [store, h0, ih hr]

theorem lookup_eq_none_of_not_mem (m : HeaderMap) (k : GoString) (hk : k ∉ keys m) :
    lookup m k = none := by
  induction m with
  | nil => simp [lookup]
  | cons e r ih =>
    obtain ⟨k0, v0⟩ := e
    have h0 : ¬ k0 = k := by
      intro h
      apply hk
      simp [keys, h]
    have hr : k ∉ keys r := by
      intro h
      apply hk
      simp only [keys, List.map_cons, List.mem_cons]
      exact Or.inr h
    simp [lookup, h0, ih hr]

theorem mem_keys_of_lookup (m : HeaderMap) (k v : GoString) (h : lookup m k = some v) :
    k ∈ keys m := by
  by_contra hk
  rw [lookup_eq_none_of_not_mem m k hk] at h
  cases h

theorem lookup_map_values {β : Type} (f : GoString → GoString → β) (m : HeaderMap)
    (k : GoString) :
    lookup (m.map fun kv => (kv.1, f kv.1 kv.2)) k = (lookup m k).map (f k) := by
  induction m with
  | nil => simp [lookup]
  | cons e r ih =>
    obtain ⟨k0, v0⟩ := e
    by_cases h0 : k0 = k
    · subst h0
      simp [lookup]
    · simp [lookup, h0, ih]

theorem foldl_store_fresh {β : Type} (f : GoString → GoString → β) (h : HeaderMap)
    (out : List (GoString × β)) (hnd : (keys out ++ keys h).Nodup) :
    h.foldl (fun o kv => store o kv.1 (f kv.1 kv.2)) out
      = out ++ h.map fun kv => (kv.1, f kv.1 kv.2) := by
  induction h generalizing out with
  | nil => simp
  | cons e r ih =>
    obtain ⟨k0, v0⟩ := e
    have hk : k0 ∉ keys out := by
      intro hmem
      simp only [keys, List.map_cons] at hnd
      have := List.nodup_append.mp hnd
      exact this.2.2 hmem (List.mem_cons_self _ _)
    have hnd2 : (keys (out ++ [(k0, f k0 v0)]) ++ keys r).Nodup := by
      simpa [keys] using hnd
    simp only [List.foldl_cons, store_of_not_mem out k0 _ hk]
    rw [ih _ hnd2]
    simp

theorem lookup_append (a b : HeaderMap) (k : GoString) :
    lookup (a ++ b) k = (lookup a k).or (lookup b k) := by
  induction a with
  | nil => simp [lookup]
  | cons e r ih =>
    obtain ⟨k0, v0⟩ := e
    by_cases h0 : k0 = k
    · simp [lookup, h0]
    · simp [lookup, h0, ih]

theorem lookup_foldl_store (ps : List (GoString × GoString)) (m : HeaderMap) (k : GoString) :
    lookup (ps.foldl (fun hs p => store hs p.1 p.2) m) k
      = (lookup ps.reverse k).or (lookup m k) := by
  induction ps generalizing m with
  | nil => simp [lookup]
  | cons p r ih =>
    obtain ⟨k0, v0⟩ := p
    rw [List.foldl_cons, ih, List.reverse_cons, lookup_append, lookup_store]
    cases lookup r.reverse k with
    | some v => simp
    | none =>
      by_cases h0 : k0 = k
      · simp [lookup, h0]
      · simp [lookup, h0]

theorem foldl_entries (step : HeaderMap → GoString → HeaderMap)
    (f : GoString → Option (GoString × GoString))
    (hstep : ∀ hs e, step hs e = match f e with
      | some p => store hs p.1 p.2
      | none => hs)
    (es : List GoString) (m : HeaderMap) :
    es.foldl step m = (es.filterMap f).foldl (fun hs p => store hs p.1 p.2) m := by
  induction es generalizing m with
  | nil => rfl
  | cons e r ih =>
    rw [List.foldl_cons, ih, hstep]
    cases h : f e with
    | none => simp [List.filterMap_cons, h]
    | some p => simp [List.filterMap_cons, h]

theorem keys_store_nodup (m : HeaderMap) (k v : GoString) (h : (keys m).Nodup) :
    (keys (store m k v)).Nodup := by
  by_cases hk : k ∈ keys m
  · have : keys (store m k v) = keys m := by
      clear h
      induction m with
      | nil => simp [keys] at hk
      | cons e r ih =>
        obtain ⟨k0, v0⟩ := e
        by_cases h0 : k0 = k
        · simp [store, keys, h0]
        · have hr : k ∈ keys r := by
            simp only [keys, List.map_cons, List.mem_cons] at hk
            rcases hk with hk | hk
            · exact absurd hk.symm h0
            · exact hk
          have := ih hr
          simp only [keys] at this
          simp [store, keys, h0, this]
    rw [this]
    exact h
  · rw [store_of_not_mem m k v hk]
    simp only [keys, List.map_append, List.map_cons, List.map_nil]
    rw [List.nodup_append]
    refine ⟨h, by simp, ?_⟩
    intro a ha hb
    simp only [List.mem_singleton] at hb
    subst hb
    exact hk ha

namespace Shared

theorem scrubHeaders_eq_map (h : HeaderMap) (hnd : (keys h).Nodup) :
    scrubHeaders h = h.map fun kv => (kv.1, scrubValue kv.1 kv.2) := by
  unfold scrubHeaders
  rw [foldl_store_fresh scrubValue h [] (by simpa [keys] using hnd)]
  simp

theorem lookup_scrubHeaders (h : HeaderMap) (hnd : (keys h).Nodup) (k : GoString) :
    lookup (scrubHeaders h) k = (lookup h k).map (scrubValue k) := by
  rw [scrubHeaders_eq_map h hnd, lookup_map_values]

theorem scrubValue_credential (k v : GoString)
    (hc : k = "api_key" ∨ contains (toLower k) "auth" = true) :
    scrubValue k v = utf8Bytes "****" := by
  unfold scrubValue
  rw [if_pos hc]

theorem scrubValue_space_id (v : GoString) :
    scrubValue "space_id" v
      = if (utf8Bytes v).length > 6 then (utf8Bytes v).take 6 ++ utf8Bytes "…"
        else utf8Bytes "****" := by
  have hd : ¬ (("space_id" : GoString) = "api_key" ∨
      contains (toLower "space_id") "auth" = true) := by decide
  unfold scrubValue
  rw [if_neg hd, if_pos rfl]

theorem scrubValue_other (k v : GoString) (h1 : k ≠ "api_key")
    (h2 : contains (toLower k) "auth" = false) (h3 : k ≠ "space_id") :
    scrubValue k v = utf8Bytes v := by
  have hd : ¬ (k = "api_key" ∨ contains (toLower k) "auth" = true) := by
    rintro (h | h)
    · exact h1 h
    · rw [h2] at h
      cases h
  unfold scrubValue
  rw [if_neg hd, if_neg h3]

/-- C1 (as amended): for a map `h` with distinct keys, `scrubHeaders h` has exactly the
keys of `h`; `api_key` and every key whose lower-cased form contains `auth` map to
`****`; `space_id` maps to the first 6 bytes of its value followed by `…` when the value
is longer than 6 bytes, and to `****` when the value is 6 bytes long or shorter; every
other key keeps its value. The values of the redacted copy are byte strings. -/
theorem scrubHeaders_spec (h : HeaderMap) (hnd : (keys h).Nodup) (k : GoString) :
    keys (scrubHeaders h) = keys h ∧
    (lookup h k = none → lookup (scrubHeaders h) k = none) ∧
    ∀ v : GoString, lookup h k = some v →
      ((k = "api_key" ∨ contains (toLower k) "auth" = true) →
        lookup (scrubHeaders h) k = some (utf8Bytes "****")) ∧
      (k = "space_id" → 6 < (utf8Bytes v).length →
        lookup (scrubHeaders h) k = some ((utf8Bytes v).take 6 ++ utf8Bytes "…")) ∧
      (k = "space_id" → (utf8Bytes v).length ≤ 6 →
        lookup (scrubHeaders h) k = some (utf8Bytes "****")) ∧
      (k ≠ "api_key" → contains (toLower k) "auth" = false → k ≠ "space_id" →
        lookup (scrubHeaders h) k = some (utf8Bytes v)) := by
  refine ⟨?_, ?_, ?_⟩
  · rw [scrubHeaders_eq_map h hnd]
    simp [keys, Function.comp_def]
  · intro hk
    rw [lookup_scrubHeaders h hnd, hk]
    rfl
  · intro v hv
    rw [lookup_scrubHeaders h hnd, hv]
    refine ⟨?_, ?_, ?_, ?_⟩
    · intro hc
      rw [Option.map_some', scrubValue_credential k v hc]
    · intro hk hlen
      subst hk
      rw [Option.map_some', scrubValue_space_id, if_pos hlen]
    · intro hk hlen
      subst hk
      have hl : ¬ (utf8Bytes v).length > 6 := by omega
      rw [Option.map_some', scrubValue_space_id, if_neg hl]
    · intro h1 h2 h3
      rw [Option.map_some', scrubValue_other k v h1 h2 h3]

/-- C1, witness: the map `api_key: secret, space_id: abc123xyz, x-custom: v` at the key
`space_id`, which maps to `abc123…`. -/
theorem scrubHeaders_spec_witness :
    (keys (headerMap [("api_key", "secret"), ("space_id", "abc123xyz"),
      ("x-custom", "v")])).Nodup ∧
    lookup (scrubHeaders (headerMap [("api_key", "secret"), ("space_id", "abc123xyz"),
      ("x-custom", "v")])) "space_id" = some (utf8Bytes "abc123…") :=
  ⟨by decide,
   (((scrubHeaders_spec (headerMap [("api_key", "secret"), ("space_id", "abc123xyz"),
      ("x-custom", "v")]) (by decide) "space_id").2.2 "abc123xyz" (by decide)).2.1
      rfl (by decide)).trans (by decide)⟩

/-- C1, counterexample: the value `abcdef` of `space_id` has 6 characters, so it is not
shorter than 6 characters and C1 asks for `abcdef…`; `scrubHeaders` returns `****`.
The 6 visible units are bytes: of the 7 characters `ééééééé` (14 bytes) it shows the
first 3, which are the first 6 bytes, and of `abcdeéx` it shows `abcde` and the first
byte `0xC3` of `é`. -/
theorem scrubHeaders_six_characters :
    (¬ List.length ("abcdef" : GoString) < 6 ∧
      lookup (scrubHeaders (headerMap [("space_id", "abcdef")])) "space_id"
        = some (utf8Bytes "****") ∧
      lookup (scrubHeaders (headerMap [("space_id", "abcdef")])) "space_id"
        ≠ some (utf8Bytes (List.take 6 ("abcdef" : GoString) ++ "…"))) ∧
    (lookup (scrubHeaders (headerMap [("space_id", "ééééééé")])) "space_id"
        = some (utf8Bytes "ééé…") ∧
      lookup (scrubHeaders (headerMap [("space_id", "ééééééé")])) "space_id"
        ≠ some (utf8Bytes (List.take 6 ("ééééééé" : GoString) ++ "…"))) ∧
    (lookup (scrubHeaders (headerMap [("space_id", "abcdeéx")])) "space_id"
        = some ([0x61, 0x62, 0x63, 0x64, 0x65, 0xC3, 0xE2, 0x80, 0xA6] : Bytes) ∧
      lookup (scrubHeaders (headerMap [("space_id", "abcdeéx")])) "space_id"
        ≠ some (utf8Bytes (List.take 6 ("abcdeéx" : GoString) ++ "…"))) := by
  decide

/-- C2: two maps with the same keys that differ only in the values of `api_key` and of
the keys whose lower-cased form contains `auth` have the same redacted copy. -/
theorem scrubHeaders_hides_credentials (h1 h2 : HeaderMap)
    (hnd1 : (keys h1).Nodup) (hnd2 : (keys h2).Nodup)
    (hkeys : ∀ k : GoString, (lookup h1 k).isSome = (lookup h2 k).isSome)
    (hsame : ∀ k : GoString, k ≠ "api_key" → contains (toLower k) "auth" = false →
      lookup h1 k = lookup h2 k)
    (k : GoString) :
    lookup (scrubHeaders h1) k = lookup (scrubHeaders h2) k := by
  rw [lookup_scrubHeaders h1 hnd1, lookup_scrubHeaders h2 hnd2]
  by_cases hc : k = "api_key" ∨ contains (toLower k) "auth" = true
  · have hk := hkeys k
    cases e1 : lookup h1 k <;> cases e2 : lookup h2 k
    · rfl
    · rw [e1, e2] at hk
      cases hk
    · rw [e1, e2] at hk
      cases hk
    · rw [Option.map_some', Option.map_some', scrubValue_credential k _ hc,
        scrubValue_credential k _ hc]
  · have h1' : k ≠ "api_key" := fun h => hc (Or.inl h)
    have h2' : contains (toLower k) "auth" = false := by
      cases hb : contains (toLower k) "auth"
      · rfl
      · exact absurd (Or.inr hb) hc
    rw [hsame k h1' h2']

theorem shared_parseEntry_eq (hs : HeaderMap) (e : GoString) :
    parseEntry hs e = match specHeaderEntry e with
      | some p => store hs p.1 p.2
      | none => hs := by
  rw [specHeaderEntry_eq]
  unfold parseEntry
  by_cases ht : trimSpace e = []
  · simp [ht]
  · have hc : contains (trimSpace e) "=" = (cut '=' (trimSpace e)).isSome :=
      contains_singleton '=' (trimSpace e)
    cases h : cut '=' (trimSpace e) with
    | none =>
      rw [h] at hc
      have hc2 : ¬ (trimSpace e = [] ∨ ¬ contains (trimSpace e) "=" = true) → False := by
        intro hn
        apply hn
        right
        rw [hc]
        simp
      have hc3 : (trimSpace e = [] ∨ ¬ contains (trimSpace e) "=" = true) := by
        by_contra hn
        exact hc2 hn
      simp only [if_neg ht]
      rw [if_pos hc3]
    | some p =>
      obtain ⟨a, b⟩ := p
      rw [h] at hc
      have hc3 : ¬ (trimSpace e = [] ∨ ¬ contains (trimSpace e) "=" = true) := by
        rintro (h1 | h1)
        · exact ht h1
        · apply h1
          rw [hc]
          rfl
      simp only [if_neg ht]
      rw [if_neg hc3]
      simp only [splitN2, h]

theorem shared_lookup_explicit (h : GoString) (k : GoString) :
    lookup ((splitOn ',' h).foldl parseEntry []) k = specHeaders h k := by
  rw [foldl_entries parseEntry specHeaderEntry shared_parseEntry_eq, lookup_foldl_store]
  unfold specHeaders specHeaderEntries
  cases lookup (List.filterMap specHeaderEntry (splitOn ',' h)).reverse k <;> simp [lookup]

theorem firstNonEmpty_pair (a b : GoString) :
    firstNonEmpty [a, b] = trimSpace (if trimSpace a ≠ [] then a else b) := by
  by_cases h1 : trimSpace a = []
  · by_cases h2 : trimSpace b = []
    · simp [firstNonEmpty, h1, h2]
    · simp [firstNonEmpty, h1, h2]
  · simp [firstNonEmpty, h1]

theorem shared_firstNonEmpty_headers (env : Env) :
    firstNonEmpty [env "OTEL_EXPORTER_OTLP_TRACES_HEADERS", env "OTEL_EXPORTER_OTLP_HEADERS"]
      = trimSpace (explicitHeaderValue env) := by
  exact firstNonEmpty_pair _ _

theorem lookup_explicitHeaders (env : Env) (k : GoString) :
    lookup (explicitHeaders env) k = specHeaders (explicitHeaderValue env) k := by
  unfold explicitHeaders
  rw [shared_firstNonEmpty_headers]
  by_cases h : trimSpace (explicitHeaderValue env) = []
  · have h0 : specHeaders (trimSpace (explicitHeaderValue env)) k = none := by
      rw [h]
      unfold specHeaders
      rw [specHeaderEntries_nil]
      rfl
    rw [← specHeaders_trimSpace, h0]
    simp [h, lookup]
  · simp only [ne_eq, h, not_false_eq_true, if_true]
    rw [shared_lookup_explicit, specHeaders_trimSpace]

theorem lookup_fallback_of_some (env : Env) (key var : GoString) (m : HeaderMap)
    (k v : GoString) (h : lookup m k = some v) :
    lookup (fallback env key var m) k = some v := by
  unfold fallback
  by_cases hn : (lookup m key).isNone = true
  · rw [if_pos hn]
    by_cases ht : trimSpace (env var) ≠ []
    · rw [if_pos ht, lookup_store]
      have hne : ¬ key = k := by
        intro e
        rw [e, h] at hn
        cases hn
      rw [if_neg hne, h]
    · rw [if_neg ht, h]
  · rw [if_neg hn, h]

theorem fallback_unset (env : Env) (key var : GoString) (m : HeaderMap)
    (h : env var = []) : fallback env key var m = m := by
  unfold fallback
  rw [h]
  have : ¬ trimSpace ([] : GoString) ≠ [] := by decide
  rw [if_neg this]
  simp

/-- C2, witness: two maps with the keys `api_key`, `Authorization` and `space_id` that
differ in the two credentials. -/
theorem scrubHeaders_hides_credentials_witness :
    (∀ k : GoString,
      (lookup (headerMap [("api_key", "one"), ("Authorization", "Bearer a"),
        ("space_id", "abc123xyz")]) k).isSome
      = (lookup (headerMap [("api_key", "two"), ("Authorization", "Bearer b"),
        ("space_id", "abc123xyz")]) k).isSome) ∧
    lookup (scrubHeaders (headerMap [("api_key", "one"), ("Authorization", "Bearer a"),
        ("space_id", "abc123xyz")])) "Authorization"
      = lookup (scrubHeaders (headerMap [("api_key", "two"), ("Authorization", "Bearer b"),
        ("space_id", "abc123xyz")])) "Authorization" := by
  have hkeys : ∀ k : GoString,
      (lookup (headerMap [("api_key", "one"), ("Authorization", "Bearer a"),
        ("space_id", "abc123xyz")]) k).isSome
      = (lookup (headerMap [("api_key", "two"), ("Authorization", "Bearer b"),
        ("space_id", "abc123xyz")]) k).isSome := by
    intro k
    simp only [headerMap, List.map, lookup]
    split_ifs <;> rfl
  refine ⟨hkeys, scrubHeaders_hides_credentials _ _ (by decide) (by decide) hkeys ?_
    "Authorization"⟩
  intro k h1 h2
  simp only [headerMap, List.map, lookup]
  by_cases e1 : "api_key".toList = k
  · exact absurd e1.symm h1
  · rw [if_neg e1, if_neg e1]
    by_cases e2 : "Authorization".toList = k
    · rw [← e2] at h2
      have hc : contains (toLower "Authorization") "auth" = true := by decide
      rw [hc] at h2
      cases h2
    · rw [if_neg e2, if_neg e2]

/-- C3: in the shared variant every key of the explicit header variable
(`OTEL_EXPORTER_OTLP_TRACES_HEADERS`, else `OTEL_EXPORTER_OTLP_HEADERS`) keeps, in the
result of `parseHeaders`, the value of its last entry, whatever the `ARIZE_*` variables
are set to. -/
theorem parseHeaders_explicit_wins (env : Env) (k v : GoString)
    (hk : specHeaders (explicitHeaderValue env) k = some v) :
    lookup (parseHeaders env) k = some v := by
  unfold parseHeaders
  apply lookup_fallback_of_some
  apply lookup_fallback_of_some
  apply lookup_fallback_of_some
  apply lookup_fallback_of_some
  rw [lookup_explicitHeaders]
  exact hk

/-- C3, witness: `space_id=explicit, api_key=first, api_key=last` in the header variable
and all four `ARIZE_*` variables set; `api_key` keeps `last`. -/
theorem parseHeaders_explicit_wins_witness :
    specHeaders (explicitHeaderValue (mkEnv
      [("OTEL_EXPORTER_OTLP_HEADERS", "space_id=explicit, api_key=first, api_key=last"),
       ("ARIZE_SPACE_ID", "fallback-space"), ("ARIZE_API_KEY", "fallback-key"),
       ("ARIZE_INTERFACE", "ui"), ("ARIZE_PROJECT_NAME", "project")])) "api_key"
      = some ("last" : GoString) ∧
    lookup (parseHeaders (mkEnv
      [("OTEL_EXPORTER_OTLP_HEADERS", "space_id=explicit, api_key=first, api_key=last"),
       ("ARIZE_SPACE_ID", "fallback-space"), ("ARIZE_API_KEY", "fallback-key"),
       ("ARIZE_INTERFACE", "ui"), ("ARIZE_PROJECT_NAME", "project")])) "api_key"
      = some ("last" : GoString) :=
  ⟨by decide, parseHeaders_explicit_wins _ "api_key" "last" (by decide)⟩

end Shared

namespace Gemini

theorem gemini_parseEntry_eq (hs : HeaderMap) (e : GoString) :
    parseEntry hs e = match specHeaderEntry e with
      | some p => store hs p.1 p.2
      | none => hs := by
  rw [specHeaderEntry_eq]
  unfold parseEntry
  by_cases ht : trimSpace e = []
  · simp [ht]
  · simp only [if_neg ht]
    cases h : cut '=' (trimSpace e) with
    | none => simp only [splitN2, h]
    | some p =>
      obtain ⟨a, b⟩ := p
      simp only [splitN2, h]

theorem foldl_parseEntry_eq (h : GoString) :
    (splitOn ',' h).foldl parseEntry []
      = (specHeaderEntries h).foldl (fun hs p => store hs p.1 p.2) [] := by
  rw [foldl_entries parseEntry specHeaderEntry gemini_parseEntry_eq]
  rfl

theorem gemini_lookup_explicit (h : GoString) (k : GoString) :
    lookup ((splitOn ',' h).foldl parseEntry []) k = specHeaders h k := by
  rw [foldl_parseEntry_eq, lookup_foldl_store]
  unfold specHeaders
  cases lookup (specHeaderEntries h).reverse k <;> simp [lookup]

theorem gemini_firstNonEmpty_pair (env : Env) (a b : GoString) :
    firstNonEmpty env [a, b]
      = trimSpace (if trimSpace (env a) ≠ [] then env a else env b) := by
  by_cases h1 : trimSpace (env a) = []
  · by_cases h2 : trimSpace (env b) = []
    · simp [firstNonEmpty, h1, h2]
    · simp [firstNonEmpty, h1, h2]
  · simp [firstNonEmpty, h1]

theorem gemini_firstNonEmpty_headers (env : Env) :
    firstNonEmpty env ["OTEL_EXPORTER_OTLP_TRACES_HEADERS", "OTEL_EXPORTER_OTLP_HEADERS"]
      = trimSpace (explicitHeaderValue env) :=
  gemini_firstNonEmpty_pair env _ _

/-- C4: in the mcp-gemini-go variant, when the explicit header variable yields no entry,
`parseHeaders` returns the five synthesized entries `space_id`, `api_key`,
`arize-space-id`, `authorization` and `arize-interface` if `ARIZE_SPACE_ID` and
`ARIZE_API_KEY` are both non-empty after trimming, and the empty map otherwise. -/
theorem parseHeaders_fallback (env : Env)
    (hexp : specHeaderEntries (explicitHeaderValue env) = []) :
    (trimSpace (env "ARIZE_SPACE_ID") ≠ [] → trimSpace (env "ARIZE_API_KEY") ≠ [] →
      parseHeaders env =
        ([("space_id", trimSpace (env "ARIZE_SPACE_ID")),
          ("api_key", trimSpace (env "ARIZE_API_KEY")),
          ("arize-space-id", trimSpace (env "ARIZE_SPACE_ID")),
          ("authorization", trimSpace (env "ARIZE_API_KEY")),
          ("arize-interface", "go-mcp")] : HeaderMap)) ∧
    (trimSpace (env "ARIZE_SPACE_ID") = [] ∨ trimSpace (env "ARIZE_API_KEY") = [] →
      parseHeaders env = []) := by
  have hout : (splitOn ',' (firstNonEmpty env
      ["OTEL_EXPORTER_OTLP_TRACES_HEADERS", "OTEL_EXPORTER_OTLP_HEADERS"])).foldl
        parseEntry [] = [] := by
    rw [foldl_parseEntry_eq, gemini_firstNonEmpty_headers, specHeaderEntries_trimSpace, hexp]
    rfl
  have hcond : ¬ (firstNonEmpty env
      ["OTEL_EXPORTER_OTLP_TRACES_HEADERS", "OTEL_EXPORTER_OTLP_HEADERS"] ≠ [] ∧
      ((splitOn ',' (firstNonEmpty env
        ["OTEL_EXPORTER_OTLP_TRACES_HEADERS", "OTEL_EXPORTER_OTLP_HEADERS"])).foldl
          parseEntry []).length > 0) := by
    rw [hout]
    intro h
    exact absurd h.2 (by decide)
  constructor
  · intro hs hk
    unfold parseHeaders
    simp only []
    rw [if_neg hcond, if_pos ⟨hs, hk⟩]
  · intro hor
    have hn : ¬ (trimSpace (env "ARIZE_SPACE_ID") ≠ [] ∧
        trimSpace (env "ARIZE_API_KEY") ≠ []) := by
      intro h
      rcases hor with h1 | h1
      · exact h.1 h1
      · exact h.2 h1
    unfold parseHeaders
    simp only []
    rw [if_neg hcond, if_neg hn]

/-- C4, witness: no header variable, space id `abc123xyz`, API key `secret`. -/
theorem parseHeaders_fallback_witness :
    specHeaderEntries (explicitHeaderValue
      (mkEnv [("ARIZE_SPACE_ID", "abc123xyz"), ("ARIZE_API_KEY", "secret")])) = [] ∧
    parseHeaders (mkEnv [("ARIZE_SPACE_ID", "abc123xyz"), ("ARIZE_API_KEY", "secret")])
      = headerMap [("space_id", "abc123xyz"), ("api_key", "secret"),
          ("arize-space-id", "abc123xyz"), ("authorization", "secret"),
          ("arize-interface", "go-mcp")] :=
  ⟨by decide,
   (parseHeaders_fallback
      (mkEnv [("ARIZE_SPACE_ID", "abc123xyz"), ("ARIZE_API_KEY", "secret")])
      (by decide)).1 (by decide) (by decide)⟩

/-- C7 (as amended): `InitTracerProvider` builds the HTTP exporter when the protocol
override (trimmed and lower-cased) is empty or is exactly `http`, `http/protobuf`,
`http_proto` or `http+protobuf`, and builds the gRPC exporter otherwise. -/
theorem InitTracerProvider_protocol (urlParse : GoString → Option URL) (env : Env) :
    InitTracerProvider urlParse env
      = (if protocolOverride env = [] ∨ protocolOverride env = "http" ∨
            protocolOverride env = "http/protobuf" ∨ protocolOverride env = "http_proto" ∨
            protocolOverride env = "http+protobuf" then
          buildHTTPExporter urlParse env (parseHeaders env)
        else buildGRPCExporter urlParse env (parseHeaders env)) ∧
    (buildHTTPExporter urlParse env (parseHeaders env)).isHTTP = true ∧
    (buildGRPCExporter urlParse env (parseHeaders env)).isHTTP = false := by
  refine ⟨?_, rfl, rfl⟩
  unfold InitTracerProvider protocol
  simp only []
  by_cases h0 : protocolOverride env = []
  · have hc : ((if protocolOverride env = [] then ("http/protobuf" : GoString)
        else protocolOverride env) = "http" ∨
        (if protocolOverride env = [] then ("http/protobuf" : GoString)
          else protocolOverride env) = "http/protobuf" ∨
        (if protocolOverride env = [] then ("http/protobuf" : GoString)
          else protocolOverride env) = "http_proto" ∨
        (if protocolOverride env = [] then ("http/protobuf" : GoString)
          else protocolOverride env) = "http+protobuf") := by
      rw [if_pos h0]
      exact Or.inr (Or.inl rfl)
    rw [if_pos hc, if_pos (Or.inl h0)]
  · rw [if_neg h0]
    by_cases hc : protocolOverride env = "http" ∨
        protocolOverride env = "http/protobuf" ∨ protocolOverride env = "http_proto" ∨
        protocolOverride env = "http+protobuf"
    · rw [if_pos hc, if_pos (Or.inr hc)]
    · have hn : ¬ (protocolOverride env = [] ∨ protocolOverride env = "http" ∨
          protocolOverride env = "http/protobuf" ∨ protocolOverride env = "http_proto" ∨
          protocolOverride env = "http+protobuf") := by
        rintro (h | h)
        · exact h0 h
        · exact hc h
      rw [if_neg hc, if_neg hn]

/-- C7, counterexample: with `OTEL_EXPORTER_OTLP_PROTOCOL=http/json` the protocol
override begins with `http`, and `InitTracerProvider` builds the gRPC exporter. -/
theorem InitTracerProvider_http_json :
    hasPrefix (protocolOverride (mkEnv [("OTEL_EXPORTER_OTLP_PROTOCOL", "http/json")]))
      "http" = true ∧
    InitTracerProvider urlParse (mkEnv [("OTEL_EXPORTER_OTLP_PROTOCOL", "http/json")])
      = ExporterConfig.grpc "localhost:4317" [] false ∧
    (InitTracerProvider urlParse
      (mkEnv [("OTEL_EXPORTER_OTLP_PROTOCOL", "http/json")])).isHTTP = false := by
  decide

theorem gemini_firstNonEmpty_blank (env : Env) (a b : GoString)
    (h1 : trimSpace (env a) = []) (h2 : trimSpace (env b) = []) :
    firstNonEmpty env [a, b] = [] := by
  simp [firstNonEmpty, h1, h2]

/-- C8: when both endpoint variables are unset or blank, `parseHTTPSettings` returns
the default target `otlp.arize.com`, `/v1/traces`, secure, whatever the insecure
variables are set to. -/
theorem parseHTTPSettings_default (urlParse : GoString → Option URL) (env : Env)
    (h1 : trimSpace (env "OTEL_EXPORTER_OTLP_TRACES_ENDPOINT") = [])
    (h2 : trimSpace (env "OTEL_EXPORTER_OTLP_ENDPOINT") = []) :
    parseHTTPSettings urlParse env = ⟨"otlp.arize.com", "/v1/traces", false⟩ := by
  have hraw : rawEndpoint env = [] := gemini_firstNonEmpty_blank env _ _ h1 h2
  unfold parseHTTPSettings
  simp only []
  rw [if_pos hraw]

/-- C8, witness: a blank endpoint variable and the insecure variable set to `true`. -/
theorem parseHTTPSettings_default_witness :
    insecureFlag (mkEnv [("OTEL_EXPORTER_OTLP_TRACES_ENDPOINT", "  "),
      ("OTEL_EXPORTER_OTLP_INSECURE", "true")]) = true ∧
    parseHTTPSettings urlParse (mkEnv [("OTEL_EXPORTER_OTLP_TRACES_ENDPOINT", "  "),
      ("OTEL_EXPORTER_OTLP_INSECURE", "true")])
      = ⟨"otlp.arize.com", "/v1/traces", false⟩ :=
  ⟨by decide, parseHTTPSettings_default urlParse _ (by decide) (by decide)⟩

/-- The bare host without a colon: when the trimmed endpoint value is non-empty, has no
`http://` or `https://` prefix and holds no `:`, `parseHTTPSettings` returns as host
that value followed by `:4318` if the insecure flag is true and by `:443` if it is
false, with path `/v1/traces` and `insecure` equal to the flag. -/
theorem parseHTTPSettings_bare_host (urlParse : GoString → Option URL) (env : Env)
    (hraw : rawEndpoint env ≠ [])
    (hp1 : hasPrefix (rawEndpoint env) "http://" = false)
    (hp2 : hasPrefix (rawEndpoint env) "https://" = false)
    (hc : contains (rawEndpoint env) ":" = false) :
    parseHTTPSettings urlParse env
      = ⟨rawEndpoint env ++ (if insecureFlag env = true then (":4318" : GoString) else ":443"),
         "/v1/traces", insecureFlag env⟩ := by
  have hp : ¬ (hasPrefix (rawEndpoint env) "http://" = true ∨
      hasPrefix (rawEndpoint env) "https://" = true) := by
    rw [hp1, hp2]
    rintro (h | h) <;> cases h
  have hc2 : ¬ contains (rawEndpoint env) ":" = true := by
    rw [hc]
    intro h
    cases h
  unfold parseHTTPSettings
  simp only []
  rw [if_neg hraw, if_neg hp, if_pos hc2]
  simp only [joinHostPort, hc, Bool.false_eq_true, if_false]
  cases insecureFlag env <;> simp

/-- The bare host `myhost` with the insecure variable set gives host `myhost:4318`. -/
theorem parseHTTPSettings_bare_host_myhost :
    insecureFlag (mkEnv [("OTEL_EXPORTER_OTLP_ENDPOINT", "myhost"),
      ("OTEL_EXPORTER_OTLP_INSECURE", "true")]) = true ∧
    parseHTTPSettings urlParse (mkEnv [("OTEL_EXPORTER_OTLP_ENDPOINT", "myhost"),
      ("OTEL_EXPORTER_OTLP_INSECURE", "true")])
      = ⟨"myhost:4318", "/v1/traces", true⟩ :=
  ⟨by decide,
   (parseHTTPSettings_bare_host urlParse (mkEnv [("OTEL_EXPORTER_OTLP_ENDPOINT", "myhost"),
      ("OTEL_EXPORTER_OTLP_INSECURE", "true")])
      (by decide) (by decide) (by decide) (by decide)).trans (by decide)⟩

/-- C9 (defect of the code): the scheme-less endpoints `[::1]` and `::1` name a host
without a port. `parseHTTPSettings` takes the colon in them for a port, never gives them
to `net.JoinHostPort` (which would bracket `::1` and append the port) and returns them
as host without a port, whatever the insecure flag is. -/
theorem parseHTTPSettings_ipv6_no_port :
    parseHTTPSettings urlParse (mkEnv [("OTEL_EXPORTER_OTLP_ENDPOINT", "[::1]")])
      = ⟨"[::1]", "/v1/traces", false⟩ ∧
    parseHTTPSettings urlParse (mkEnv [("OTEL_EXPORTER_OTLP_ENDPOINT", "[::1]"),
        ("OTEL_EXPORTER_OTLP_INSECURE", "true")])
      = ⟨"[::1]", "/v1/traces", true⟩ ∧
    parseHTTPSettings urlParse (mkEnv [("OTEL_EXPORTER_OTLP_ENDPOINT", "::1"),
        ("OTEL_EXPORTER_OTLP_INSECURE", "true")])
      = ⟨"::1", "/v1/traces", true⟩ ∧
    joinHostPort "::1" "4318" = ("[::1]:4318" : GoString) := by
  decide

/-- C10: when the endpoint value begins with `http://` or `https://` and the URL parser
accepts it with host `h` and path `p`, `parseHTTPSettings` returns the host `h`
unchanged and the path `p`, except that an empty path or `/` becomes `/v1/traces`. -/
theorem parseHTTPSettings_full_url (urlParse : GoString → Option URL) (env : Env) (u : URL)
    (hp : hasPrefix (rawEndpoint env) "http://" = true ∨
      hasPrefix (rawEndpoint env) "https://" = true)
    (hu : urlParse (rawEndpoint env) = some u) :
    (parseHTTPSettings urlParse env).endpoint = u.Host ∧
    (parseHTTPSettings urlParse env).path
      = (if u.Path = [] ∨ u.Path = "/" then ("/v1/traces" : GoString) else u.Path) := by
  have hraw : rawEndpoint env ≠ [] := by
    intro h
    rw [h] at hp
    rcases hp with h | h <;> cases h
  unfold parseHTTPSettings
  simp only []
  rw [if_neg hraw, if_pos hp, hu]
  exact ⟨rfl, rfl⟩

/-- C10, witness: `https://collector.example.com/custom/path` with no insecure variable
set gives host `collector.example.com`, path `/custom/path`, `insecure = false`. -/
theorem parseHTTPSettings_full_url_witness :
    urlParse "https://collector.example.com/custom/path"
      = some (URL.mk "https" [] "collector.example.com" "/custom/path") ∧
    (parseHTTPSettings urlParse (mkEnv [("OTEL_EXPORTER_OTLP_ENDPOINT",
      "https://collector.example.com/custom/path")])).endpoint
      = ("collector.example.com" : GoString) ∧
    (parseHTTPSettings urlParse (mkEnv [("OTEL_EXPORTER_OTLP_ENDPOINT",
      "https://collector.example.com/custom/path")])).path = ("/custom/path" : GoString) ∧
    (parseHTTPSettings urlParse (mkEnv [("OTEL_EXPORTER_OTLP_ENDPOINT",
      "https://collector.example.com/custom/path")])).insecure = false :=
  ⟨by decide,
   (parseHTTPSettings_full_url urlParse (mkEnv [("OTEL_EXPORTER_OTLP_ENDPOINT",
      "https://collector.example.com/custom/path")])
      (URL.mk "https" [] "collector.example.com" "/custom/path")
      (by decide) (by decide)).1,
   (parseHTTPSettings_full_url urlParse (mkEnv [("OTEL_EXPORTER_OTLP_ENDPOINT",
      "https://collector.example.com/custom/path")])
      (URL.mk "https" [] "collector.example.com" "/custom/path")
      (by decide) (by decide)).2.trans (by decide),
   by decide⟩

end Gemini

theorem shared_firstNonEmpty_find (vals : List GoString) :
    Shared.firstNonEmpty vals
      = match vals.find? (fun v => decide (trimSpace v ≠ [])) with
        | some v => trimSpace v
        | none => [] := by
  induction vals with
  | nil => rfl
  | cons v vs ih =>
    by_cases hv : trimSpace v = []
    · simp [Shared.firstNonEmpty, List.find?_cons, hv, ih]
    · simp [Shared.firstNonEmpty, List.find?_cons, hv]

theorem gemini_firstNonEmpty_find (env : Env) (names : List GoString) :
    Gemini.firstNonEmpty env names
      = match names.find? (fun k => decide (trimSpace (env k) ≠ [])) with
        | some k => trimSpace (env k)
        | none => [] := by
  induction names with
  | nil => rfl
  | cons v vs ih =>
    by_cases hv : trimSpace (env v) = []
    · simp [Gemini.firstNonEmpty, List.find?_cons, hv, ih]
    · simp [Gemini.firstNonEmpty, List.find?_cons, hv]

theorem shared_firstNonEmpty_trimmed (vals : List GoString) :
    Shared.firstNonEmpty vals = [] ∨ ∃ v, Shared.firstNonEmpty vals = trimSpace v := by
  induction vals with
  | nil => exact Or.inl rfl
  | cons v vs ih =>
    by_cases hv : trimSpace v = []
    · simpa [Shared.firstNonEmpty, hv] using ih
    · exact Or.inr ⟨v, by simp [Shared.firstNonEmpty, hv]⟩

theorem gemini_firstNonEmpty_trimmed (env : Env) (names : List GoString) :
    Gemini.firstNonEmpty env names = [] ∨
      ∃ v, Gemini.firstNonEmpty env names = trimSpace v := by
  induction names with
  | nil => exact Or.inl rfl
  | cons v vs ih =>
    by_cases hv : trimSpace (env v) = []
    · simpa [Gemini.firstNonEmpty, hv] using ih
    · exact Or.inr ⟨env v, by simp [Gemini.firstNonEmpty, hv]⟩

/-- C5: with no `ARIZE_*` variable set, `parseHeaders` of either variant is the map of
the explicit header variable as the specification words it: the value split on commas,
the entries that are empty after trimming or have no `=` skipped, each other entry
mapping the trimmed text before its first `=` to the trimmed text after it, a later
entry replacing an earlier one. -/
theorem parseHeaders_explicit_only (env : Env)
    (h1 : env "ARIZE_SPACE_ID" = []) (h2 : env "ARIZE_API_KEY" = [])
    (h3 : env "ARIZE_INTERFACE" = []) (h4 : env "ARIZE_PROJECT_NAME" = [])
    (k : GoString) :
    lookup (Shared.parseHeaders env) k = specHeaders (explicitHeaderValue env) k ∧
    lookup (Gemini.parseHeaders env) k = specHeaders (explicitHeaderValue env) k := by
  constructor
  · unfold Shared.parseHeaders
    simp only []
    rw [Shared.fallback_unset env _ _ _ h4, Shared.fallback_unset env _ _ _ h3,
      Shared.fallback_unset env _ _ _ h2, Shared.fallback_unset env _ _ _ h1,
      Shared.lookup_explicitHeaders]
  · have hspec := Gemini.gemini_lookup_explicit
      (Gemini.firstNonEmpty env
        ["OTEL_EXPORTER_OTLP_TRACES_HEADERS", "OTEL_EXPORTER_OTLP_HEADERS"]) k
    rw [Gemini.gemini_firstNonEmpty_headers, specHeaders_trimSpace] at hspec
    have hn : ¬ (trimSpace (env "ARIZE_SPACE_ID") ≠ [] ∧
        trimSpace (env "ARIZE_API_KEY") ≠ []) := by
      rw [h1]
      intro h
      exact h.1 rfl
    unfold Gemini.parseHeaders
    simp only []
    rw [if_neg hn]
    rw [Gemini.gemini_firstNonEmpty_headers]
    by_cases hc : trimSpace (explicitHeaderValue env) ≠ [] ∧
        ((splitOn ',' (trimSpace (explicitHeaderValue env))).foldl
          Gemini.parseEntry []).length > 0
    · rw [if_pos hc]
      exact hspec
    · rw [if_neg hc, ← hspec]
      have hnil : (splitOn ',' (trimSpace (explicitHeaderValue env))).foldl
          Gemini.parseEntry [] = [] := by
        by_cases ht : trimSpace (explicitHeaderValue env) = []
        · rw [ht]
          rfl
        · have hlen : ¬ ((splitOn ',' (trimSpace (explicitHeaderValue env))).foldl
              Gemini.parseEntry []).length > 0 := fun hl => hc ⟨ht, hl⟩
          cases hl : (splitOn ',' (trimSpace (explicitHeaderValue env))).foldl
              Gemini.parseEntry [] with
          | nil => rfl
          | cons a b =>
            rw [hl] at hlen
            exact absurd (Nat.succ_pos _) hlen
      rw [hnil]

/-- C5, witness: `a=1, b=2` and `a=1, junk, b=2` both give the map `a: 1, b: 2` in both
variants. -/
theorem parseHeaders_explicit_only_witness :
    (Shared.parseHeaders (mkEnv [("OTEL_EXPORTER_OTLP_HEADERS", "a=1, b=2")])
        = headerMap [("a", "1"), ("b", "2")] ∧
      Gemini.parseHeaders (mkEnv [("OTEL_EXPORTER_OTLP_HEADERS", "a=1, b=2")])
        = headerMap [("a", "1"), ("b", "2")] ∧
      Shared.parseHeaders (mkEnv [("OTEL_EXPORTER_OTLP_HEADERS", "a=1, junk, b=2")])
        = headerMap [("a", "1"), ("b", "2")] ∧
      Gemini.parseHeaders (mkEnv [("OTEL_EXPORTER_OTLP_HEADERS", "a=1, junk, b=2")])
        = headerMap [("a", "1"), ("b", "2")]) ∧
    (lookup (Shared.parseHeaders
        (mkEnv [("OTEL_EXPORTER_OTLP_HEADERS", "a=1, junk, b=2")])) "b"
      = specHeaders (explicitHeaderValue
        (mkEnv [("OTEL_EXPORTER_OTLP_HEADERS", "a=1, junk, b=2")])) "b" ∧
     lookup (Gemini.parseHeaders
        (mkEnv [("OTEL_EXPORTER_OTLP_HEADERS", "a=1, junk, b=2")])) "b"
      = specHeaders (explicitHeaderValue
        (mkEnv [("OTEL_EXPORTER_OTLP_HEADERS", "a=1, junk, b=2")])) "b") :=
  ⟨by decide,
   parseHeaders_explicit_only (mkEnv [("OTEL_EXPORTER_OTLP_HEADERS", "a=1, junk, b=2")])
     (by decide) (by decide) (by decide) (by decide) "b"⟩

/-- C6: `firstNonEmpty` returns the trimmed value of the first listed variable (shared
variant: of the first listed value) that is non-empty after trimming, and the empty
string if there is none; the result neither begins nor ends with whitespace. -/
theorem firstNonEmpty_spec (env : Env) (names vals : List GoString) :
    (Gemini.firstNonEmpty env names
      = match names.find? (fun k => decide (trimSpace (env k) ≠ [])) with
        | some k => trimSpace (env k)
        | none => []) ∧
    (Shared.firstNonEmpty vals
      = match vals.find? (fun v => decide (trimSpace v ≠ [])) with
        | some v => trimSpace v
        | none => []) ∧
    (∀ c, (Gemini.firstNonEmpty env names).head? = some c → isSpace c = false) ∧
    (∀ c, (Gemini.firstNonEmpty env names).getLast? = some c → isSpace c = false) ∧
    (∀ c, (Shared.firstNonEmpty vals).head? = some c → isSpace c = false) ∧
    (∀ c, (Shared.firstNonEmpty vals).getLast? = some c → isSpace c = false) := by
  refine ⟨gemini_firstNonEmpty_find env names, shared_firstNonEmpty_find vals, ?_, ?_, ?_, ?_⟩
  · intro c hc
    rcases gemini_firstNonEmpty_trimmed env names with h | ⟨v, h⟩
    · rw [h] at hc
      cases hc
    · rw [h] at hc
      exact trimSpace_head v c hc
  · intro c hc
    rcases gemini_firstNonEmpty_trimmed env names with h | ⟨v, h⟩
    · rw [h] at hc
      cases hc
    · rw [h] at hc
      exact trimSpace_getLast v c hc
  · intro c hc
    rcases shared_firstNonEmpty_trimmed vals with h | ⟨v, h⟩
    · rw [h] at hc
      cases hc
    · rw [h] at hc
      exact trimSpace_head v c hc
  · intro c hc
    rcases shared_firstNonEmpty_trimmed vals with h | ⟨v, h⟩
    · rw [h] at hc
      cases hc
    · rw [h] at hc
      exact trimSpace_getLast v c hc

namespace Gemini

theorem envBool_eq_true_iff (env : Env) (names : List GoString) :
    envBool env names = true ↔
      ∃ k ∈ names, toLower (trimSpace (env k)) = "1" ∨
        toLower (trimSpace (env k)) = "true" ∨ toLower (trimSpace (env k)) = "yes" := by
  induction names with
  | nil => simp [envBool]
  | cons n ns ih =>
    by_cases hn : toLower (trimSpace (env n)) = "1" ∨
        toLower (trimSpace (env n)) = "true" ∨ toLower (trimSpace (env n)) = "yes"
    · have h1 : envBool env (n :: ns) = true := by
        rw [envBool, if_pos hn]
      rw [h1]
      exact ⟨fun _ => ⟨n, List.mem_cons_self _ _, hn⟩, fun _ => rfl⟩
    · have h1 : envBool env (n :: ns) = envBool env ns := by
        rw [envBool, if_neg hn]
      rw [h1, ih]
      constructor
      · rintro ⟨k, hk, h⟩
        exact ⟨k, List.mem_cons_of_mem _ hk, h⟩
      · rintro ⟨k, hk, h⟩
        rcases List.mem_cons.mp hk with rfl | hk
        · exact absurd h hn
        · exact ⟨k, hk, h⟩

/-- C20: `envBool` returns true exactly when at least one listed variable is, after
trimming and lower-casing, `1`, `true` or `yes`; the order of the names does not matter;
so `OTEL_EXPORTER_OTLP_TRACES_INSECURE=false` does not override
`OTEL_EXPORTER_OTLP_INSECURE=true`. -/
theorem envBool_spec (env : Env) (names : List GoString) :
    (envBool env names = true ↔
      ∃ k ∈ names, toLower (trimSpace (env k)) = "1" ∨
        toLower (trimSpace (env k)) = "true" ∨ toLower (trimSpace (env k)) = "yes") ∧
    (∀ names2 : List GoString, names.Perm names2 → envBool env names2 = envBool env names) ∧
    envBool (mkEnv [("OTEL_EXPORTER_OTLP_TRACES_INSECURE", "false"),
        ("OTEL_EXPORTER_OTLP_INSECURE", "true")])
      ["OTEL_EXPORTER_OTLP_TRACES_INSECURE", "OTEL_EXPORTER_OTLP_INSECURE"] = true := by
  refine ⟨envBool_eq_true_iff env names, ?_, by decide⟩
  intro names2 hperm
  rw [Bool.eq_iff_iff, envBool_eq_true_iff, envBool_eq_true_iff]
  constructor
  · rintro ⟨k, hk, h⟩
    exact ⟨k, hperm.mem_iff.mpr hk, h⟩
  · rintro ⟨k, hk, h⟩
    exact ⟨k, hperm.mem_iff.mp hk, h⟩

/-- C11 (defect of the code): with the endpoint `http://collector:4318` and
`OTEL_EXPORTER_OTLP_TRACES_INSECURE=false` the insecure flag is false, and
`parseHTTPSettings` returns `insecure = true`. -/
theorem parseHTTPSettings_http_ignores_forced_tls :
    insecureFlag (mkEnv [("OTEL_EXPORTER_OTLP_ENDPOINT", "http://collector:4318"),
      ("OTEL_EXPORTER_OTLP_TRACES_INSECURE", "false")]) = false ∧
    parseHTTPSettings urlParse (mkEnv [("OTEL_EXPORTER_OTLP_ENDPOINT",
      "http://collector:4318"), ("OTEL_EXPORTER_OTLP_TRACES_INSECURE", "false")])
      = ⟨"collector:4318", "/v1/traces", true⟩ := by
  decide

/-- C13 (defect of the code): the endpoints `http://` and `https:///v1/traces` parse
with an empty host, and `parseHTTPSettings` returns a target whose host is empty. -/
theorem parseHTTPSettings_empty_host :
    urlParse "http://" = some (URL.mk "http" [] [] []) ∧
    parseHTTPSettings urlParse (mkEnv [("OTEL_EXPORTER_OTLP_ENDPOINT", "http://")])
      = ⟨[], "/v1/traces", true⟩ ∧
    parseHTTPSettings urlParse
      (mkEnv [("OTEL_EXPORTER_OTLP_ENDPOINT", "https:///v1/traces")])
      = ⟨[], "/v1/traces", false⟩ := by
  decide

/-- C17 (defect of the code): the scheme-less endpoint `myhost` reaches the gRPC
exporter unchanged, without a port. -/
theorem buildGRPCExporter_bare_host_no_port :
    buildGRPCExporter urlParse (mkEnv [("OTEL_EXPORTER_OTLP_ENDPOINT", "myhost")]) []
      = ExporterConfig.grpc "myhost" [] false ∧
    buildGRPCExporter urlParse (mkEnv [("OTEL_EXPORTER_OTLP_ENDPOINT", "myhost"),
        ("OTEL_EXPORTER_OTLP_INSECURE", "true")]) []
      = ExporterConfig.grpc "myhost" [] true ∧
    contains "myhost" ":" = false := by
  decide

/-- C18 (defect of the code): the URL `http://[::1]/v1/traces` has the host `[::1]` and
no port; the gRPC exporter gets `[::1]`, not `[::1]:4317`, while `http://collector/v1/traces`
gives `collector:4317`. -/
theorem buildGRPCExporter_ipv6_no_port :
    urlParse "http://[::1]/v1/traces" = some (URL.mk "http" [] "[::1]" "/v1/traces") ∧
    buildGRPCExporter urlParse
      (mkEnv [("OTEL_EXPORTER_OTLP_ENDPOINT", "http://[::1]/v1/traces")]) []
      = ExporterConfig.grpc "[::1]" [] false ∧
    buildGRPCExporter urlParse
      (mkEnv [("OTEL_EXPORTER_OTLP_ENDPOINT", "http://collector/v1/traces")]) []
      = ExporterConfig.grpc "collector:4317" [] false := by
  decide

end Gemini

namespace Shared

/-- C14 (defect of the code): `url.Parse` rejects the endpoint `127.0.0.1:4318`; with
credentials present and the HTTP protocol `initOpenTelemetry` then reads `u.Host` of the
nil URL and panics instead of falling back to `otlp.arize.com` and `/v1/traces`. -/
theorem initOpenTelemetry_rejected_endpoint_panics
    (otlptraceNew : ClientOptions → Option GoString) (provider : Option ClientOptions) :
    urlParse "127.0.0.1:4318" = none ∧
    initOpenTelemetry urlParse otlptraceNew
      (mkEnv [("OTEL_EXPORTER_OTLP_ENDPOINT", "127.0.0.1:4318"),
        ("ARIZE_SPACE_ID", "space"), ("ARIZE_API_KEY", "key")]) provider
      = (Outcome.panic, provider) := by
  refine ⟨by decide, ?_⟩
  have hh : ¬ (index (parseHeaders (mkEnv [("OTEL_EXPORTER_OTLP_ENDPOINT", "127.0.0.1:4318"),
        ("ARIZE_SPACE_ID", "space"), ("ARIZE_API_KEY", "key")])) "space_id" = [] ∨
      index (parseHeaders (mkEnv [("OTEL_EXPORTER_OTLP_ENDPOINT", "127.0.0.1:4318"),
        ("ARIZE_SPACE_ID", "space"), ("ARIZE_API_KEY", "key")])) "api_key" = []) := by
    decide
  have hc : newClient urlParse (mkEnv [("OTEL_EXPORTER_OTLP_ENDPOINT", "127.0.0.1:4318"),
        ("ARIZE_SPACE_ID", "space"), ("ARIZE_API_KEY", "key")])
      (parseHeaders (mkEnv [("OTEL_EXPORTER_OTLP_ENDPOINT", "127.0.0.1:4318"),
        ("ARIZE_SPACE_ID", "space"), ("ARIZE_API_KEY", "key")])) = none := by
    decide
  unfold initOpenTelemetry
  simp only []
  rw [if_neg hh, hc]

theorem error_message_ne (err : GoString) :
    Outcome.error ("failed to create OTLP exporter: " ++ err)
      ≠ Outcome.error "missing ARIZE creds: space_id or api_key" := by
  intro h
  injection h with h
  have h2 := congrArg List.head? h
  simp at h2

/-- C15: `initOpenTelemetry` returns the error `missing ARIZE creds: space_id or api_key`
exactly when the map of `parseHeaders` has no non-empty `space_id` or no non-empty
`api_key`; it then returns whatever the URL parser and the exporter constructor would
do, and leaves the process-wide tracer provider as it was. -/
theorem initOpenTelemetry_missing_creds (urlParse : GoString → Option URL)
    (otlptraceNew : ClientOptions → Option GoString) (env : Env)
    (provider : Option ClientOptions) :
    ((initOpenTelemetry urlParse otlptraceNew env provider).1
        = Outcome.error "missing ARIZE creds: space_id or api_key" ↔
      (index (parseHeaders env) "space_id" = [] ∨ index (parseHeaders env) "api_key" = [])) ∧
    ((index (parseHeaders env) "space_id" = [] ∨ index (parseHeaders env) "api_key" = []) →
      initOpenTelemetry urlParse otlptraceNew env provider
        = (Outcome.error "missing ARIZE creds: space_id or api_key", provider)) := by
  have hmiss : (index (parseHeaders env) "space_id" = [] ∨
      index (parseHeaders env) "api_key" = []) →
      initOpenTelemetry urlParse otlptraceNew env provider
        = (Outcome.error "missing ARIZE creds: space_id or api_key", provider) := by
    intro hc
    unfold initOpenTelemetry
    simp only []
    rw [if_pos hc]
  refine ⟨⟨?_, fun hc => by rw [hmiss hc]⟩, hmiss⟩
  intro h
  by_contra hc
  unfold initOpenTelemetry at h
  simp only [] at h
  rw [if_neg hc] at h
  cases hcl : newClient urlParse env (parseHeaders env) with
  | none =>
    rw [hcl] at h
    cases h
  | some c =>
    rw [hcl] at h
    dsimp only at h
    cases hn : otlptraceNew c with
    | none =>
      rw [hn] at h
      cases h
    | some err =>
      rw [hn] at h
      exact error_message_ne err h

/-- C15, instance: `ARIZE_API_KEY` is missing; the error is returned even though the
endpoint is one on which the URL parser fails, and the provider is unchanged. -/
theorem initOpenTelemetry_missing_creds_witness :
    initOpenTelemetry urlParse (fun _ => none)
      (mkEnv [("OTEL_EXPORTER_OTLP_ENDPOINT", "127.0.0.1:4318"),
        ("ARIZE_SPACE_ID", "space")]) none
      = (Outcome.error "missing ARIZE creds: space_id or api_key", none) :=
  (initOpenTelemetry_missing_creds urlParse (fun _ => none)
    (mkEnv [("OTEL_EXPORTER_OTLP_ENDPOINT", "127.0.0.1:4318"),
      ("ARIZE_SPACE_ID", "space")]) none).2 (by decide)

theorem rawEndpoint_blank (env : Env)
    (he1 : trimSpace (env "OTEL_EXPORTER_OTLP_TRACES_ENDPOINT") = [])
    (he2 : trimSpace (env "OTEL_EXPORTER_OTLP_ENDPOINT") = []) :
    rawEndpoint env = [] := by
  unfold rawEndpoint
  rw [firstNonEmpty_pair]
  have h : ¬ trimSpace (env "OTEL_EXPORTER_OTLP_TRACES_ENDPOINT") ≠ [] := fun h => h he1
  rw [if_neg h, he2]

/-- C19 (as amended): in the shared variant, when the protocol override is non-empty and
does not begin with `http`, credentials are present and no endpoint variable is set,
`initOpenTelemetry` gives the gRPC exporter the endpoint `otlp.arize.com:443`. -/
theorem initOpenTelemetry_grpc_default (urlParse : GoString → Option URL)
    (otlptraceNew : ClientOptions → Option GoString) (env : Env)
    (provider : Option ClientOptions)
    (hp0 : protocolOverride env ≠ [])
    (hp1 : hasPrefix (protocolOverride env) "http" = false)
    (hcreds : ¬ (index (parseHeaders env) "space_id" = [] ∨
      index (parseHeaders env) "api_key" = []))
    (he1 : trimSpace (env "OTEL_EXPORTER_OTLP_TRACES_ENDPOINT") = [])
    (he2 : trimSpace (env "OTEL_EXPORTER_OTLP_ENDPOINT") = []) :
    newClient urlParse env (parseHeaders env)
      = some (ClientOptions.grpc "otlp.arize.com:443" (parseHeaders env)) ∧
    initOpenTelemetry urlParse otlptraceNew env provider
      = (match otlptraceNew (ClientOptions.grpc "otlp.arize.com:443" (parseHeaders env)) with
        | some err => (Outcome.error ("failed to create OTLP exporter: " ++ err), provider)
        | none => (Outcome.ok (ClientOptions.grpc "otlp.arize.com:443" (parseHeaders env)),
            some (ClientOptions.grpc "otlp.arize.com:443" (parseHeaders env)))) := by
  have hclient : newClient urlParse env (parseHeaders env)
      = some (ClientOptions.grpc "otlp.arize.com:443" (parseHeaders env)) := by
    have hraw := rawEndpoint_blank env he1 he2
    have hn : ¬ (protocolOverride env = [] ∨ hasPrefix (protocolOverride env) "http" = true) := by
      rintro (h | h)
      · exact hp0 h
      · rw [hp1] at h
        cases h
    have hn2 : ¬ (protocolOverride env = "http" ∨ protocolOverride env = "http/protobuf") := by
      rintro (h | h)
      · rw [h] at hp1
        revert hp1
        decide
      · rw [h] at hp1
        revert hp1
        decide
    unfold newClient
    simp only []
    rw [if_neg hn, if_neg hn2, hraw]
    rfl
  refine ⟨hclient, ?_⟩
  unfold initOpenTelemetry
  simp only []
  rw [if_neg hcreds, hclient]

/-- C19, witness: `OTEL_EXPORTER_OTLP_PROTOCOL=grpc`, both credentials, no endpoint. -/
theorem initOpenTelemetry_grpc_default_witness :
    newClient urlParse
      (mkEnv [("OTEL_EXPORTER_OTLP_PROTOCOL", "grpc"), ("ARIZE_SPACE_ID", "space"),
        ("ARIZE_API_KEY", "key")])
      (parseHeaders (mkEnv [("OTEL_EXPORTER_OTLP_PROTOCOL", "grpc"),
        ("ARIZE_SPACE_ID", "space"), ("ARIZE_API_KEY", "key")]))
      = some (ClientOptions.grpc "otlp.arize.com:443"
          (headerMap [("space_id", "space"), ("api_key", "key")])) :=
  (initOpenTelemetry_grpc_default urlParse (fun _ => none)
    (mkEnv [("OTEL_EXPORTER_OTLP_PROTOCOL", "grpc"), ("ARIZE_SPACE_ID", "space"),
      ("ARIZE_API_KEY", "key")]) none
    (by decide) (by decide) (by decide) (by decide) (by decide)).1.trans (by decide)

/-- C19, counterexample: with `OTEL_EXPORTER_OTLP_PROTOCOL=grpc`, both credentials and no
endpoint variable, the gRPC exporter gets `otlp.arize.com:443`, not `localhost:4317`. -/
theorem initOpenTelemetry_grpc_not_localhost :
    initOpenTelemetry urlParse (fun _ => none)
      (mkEnv [("OTEL_EXPORTER_OTLP_PROTOCOL", "grpc"), ("ARIZE_SPACE_ID", "space"),
        ("ARIZE_API_KEY", "key")]) none
      = (Outcome.ok (ClientOptions.grpc "otlp.arize.com:443"
          (headerMap [("space_id", "space"), ("api_key", "key")])),
        some (ClientOptions.grpc "otlp.arize.com:443"
          (headerMap [("space_id", "space"), ("api_key", "key")]))) ∧
    newClient urlParse
      (mkEnv [("OTEL_EXPORTER_OTLP_PROTOCOL", "grpc"), ("ARIZE_SPACE_ID", "space"),
        ("ARIZE_API_KEY", "key")])
      (headerMap [("space_id", "space"), ("api_key", "key")])
      ≠ some (ClientOptions.grpc "localhost:4317"
          (headerMap [("space_id", "space"), ("api_key", "key")])) := by
  decide

theorem lookup_fallback_cases (env : Env) (key var : GoString) (m : HeaderMap)
    (k v : GoString) (h : lookup (fallback env key var m) k = some v) :
    lookup m k = some v ∨ v ≠ [] := by
  unfold fallback at h
  by_cases hn : (lookup m key).isNone = true
  · rw [if_pos hn] at h
    by_cases ht : trimSpace (env var) ≠ []
    · rw [if_pos ht, lookup_store] at h
      by_cases hk : key = k
      · rw [if_pos hk] at h
        injection h with h
        rw [← h]
        exact Or.inr ht
      · rw [if_neg hk] at h
        exact Or.inl h
    · rw [if_neg ht] at h
      exact Or.inl h
  · rw [if_neg hn] at h
    exact Or.inl h

theorem shared_empty_value (env : Env) (k : GoString)
    (h : lookup (parseHeaders env) k = some []) :
    specHeaders (explicitHeaderValue env) k = some [] := by
  unfold parseHeaders at h
  simp only [] at h
  rcases lookup_fallback_cases env _ _ _ k [] h with h | h
  · rcases lookup_fallback_cases env _ _ _ k [] h with h | h
    · rcases lookup_fallback_cases env _ _ _ k [] h with h | h
      · rcases lookup_fallback_cases env _ _ _ k [] h with h | h
        · rw [lookup_explicitHeaders] at h
          exact h
        · exact absurd rfl h
      · exact absurd rfl h
    · exact absurd rfl h
  · exact absurd rfl h

end Shared

namespace Gemini

theorem gemini_empty_value (env : Env) (k : GoString)
    (h : lookup (parseHeaders env) k = some []) :
    specHeaders (explicitHeaderValue env) k = some [] := by
  have hspec := gemini_lookup_explicit
    (firstNonEmpty env ["OTEL_EXPORTER_OTLP_TRACES_HEADERS", "OTEL_EXPORTER_OTLP_HEADERS"]) k
  rw [gemini_firstNonEmpty_headers, specHeaders_trimSpace] at hspec
  unfold parseHeaders at h
  simp only [] at h
  rw [gemini_firstNonEmpty_headers] at h
  by_cases hc : trimSpace (explicitHeaderValue env) ≠ [] ∧
      ((splitOn ',' (trimSpace (explicitHeaderValue env))).foldl parseEntry []).length > 0
  · rw [if_pos hc] at h
    rw [← hspec]
    exact h
  · rw [if_neg hc] at h
    by_cases hk : trimSpace (env "ARIZE_SPACE_ID") ≠ [] ∧ trimSpace (env "ARIZE_API_KEY") ≠ []
    · rw [if_pos hk] at h
      exfalso
      simp only [lookup] at h
      split_ifs at h
      · injection h with h
        exact hk.1 h
      · injection h with h
        exact hk.2 h
      · injection h with h
        exact hk.1 h
      · injection h with h
        exact hk.2 h
      · injection h with h
        revert h
        decide
    · rw [if_neg hk] at h
      cases h

end Gemini

/-- C16 (as amended): in the map returned by `parseHeaders` (either variant) a value is
empty only if it is the value of an entry of the explicit header variable with nothing
after its `=`; the values synthesized from the `ARIZE_*` variables are never empty. -/
theorem parseHeaders_empty_values (env : Env) (k : GoString) :
    (lookup (Shared.parseHeaders env) k = some [] →
      specHeaders (explicitHeaderValue env) k = some []) ∧
    (lookup (Gemini.parseHeaders env) k = some [] →
      specHeaders (explicitHeaderValue env) k = some []) :=
  ⟨Shared.shared_empty_value env k, Gemini.gemini_empty_value env k⟩

/-- C16, counterexample: with the header variable `a=` both variants return a map in
which the value of `a` is the empty string. -/
theorem parseHeaders_stores_empty_value :
    lookup (Shared.parseHeaders (mkEnv [("OTEL_EXPORTER_OTLP_HEADERS", "a=")])) "a"
      = some ([] : GoString) ∧
    lookup (Gemini.parseHeaders (mkEnv [("OTEL_EXPORTER_OTLP_HEADERS", "a=")])) "a"
      = some ([] : GoString) := by
  decide

/-! ## The URL parser: lemmas -/

theorem ofNat_eq_slash (v : Nat) (h : Char.ofNat v = '/') : v = 47 := by
  by_cases hv : v.isValidChar
  · have h2 := congrArg Char.toNat h
    simp [Char.ofNat, hv, Char.ofNatAux, Char.toNat, UInt32.ofNat', UInt32.toNat] at h2
    exact h2
  · have h3 : Char.ofNat v = Char.ofNat 0 := by
      unfold Char.ofNat
      rw [dif_neg hv]
      rfl
    rw [h3] at h
    exact absurd h (by decide)

theorem plain_ne_slash (mode : Encoding) (hm : mode = .encodeHost ∨ mode = .encodeZone)
    (c : Char)
    (hc : ¬ ((mode = .encodeHost ∨ mode = .encodeZone) ∧ c ≠ '+' ∧ c.toNat < 0x80 ∧
      shouldEscapeHost c = true)) : c ≠ '/' := by
  intro e
  subst e
  exact hc ⟨hm, by decide, by decide, by decide⟩

theorem escape_ne_slash (mode : Encoding) (hm : mode = .encodeHost ∨ mode = .encodeZone)
    (a b : Char)
    (h1 : ¬ (mode = .encodeHost ∧ unhex a < 8 ∧ ¬ (a = '2' ∧ b = '5')))
    (h2 : ¬ (mode = .encodeZone ∧ ¬ (a = '2' ∧ b = '5') ∧ 16 * unhex a + unhex b ≠ 32 ∧
      shouldEscapeHost (Char.ofNat (16 * unhex a + unhex b)) = true)) :
    Char.ofNat (16 * unhex a + unhex b) ≠ '/' := by
  intro e
  have hv := ofNat_eq_slash _ e
  by_cases h25 : a = '2' ∧ b = '5'
  · obtain ⟨ha, hb⟩ := h25
    subst ha
    subst hb
    revert hv
    decide
  · rcases hm with hm | hm
    · exact h1 ⟨hm, by omega, h25⟩
    · refine h2 ⟨hm, h25, by omega, ?_⟩
      rw [e]
      decide

theorem unescape_no_slash (mode : Encoding) (hm : mode = .encodeHost ∨ mode = .encodeZone)
    (n : Nat) : ∀ s r : GoString, s.length ≤ n → unescape mode s = some r → '/' ∉ r := by
  induction n with
  | zero =>
    intro s r hl h
    have hs : s = [] := List.length_eq_zero.mp (Nat.le_zero.mp hl)
    subst hs
    rw [unescape] at h
    injection h with h
    rw [← h]
    simp
  | succ n ih =>
    intro s r hl h
    match s, hl, h with
    | [], _, h =>
      rw [unescape] at h
      injection h with h
      rw [← h]
      simp
    | [c], _, h =>
      rw [unescape] at h
      split_ifs at h with h1 h2
      injection h with h
      rw [← h]
      have := plain_ne_slash mode hm c h2
      simp only [List.mem_singleton]
      exact fun e => this e.symm
    | [c, a], hl, h =>
      rw [unescape] at h
      split_ifs at h with h1 h2
      obtain ⟨r1, hr1, hr⟩ := Option.map_eq_some'.mp h
      rw [← hr]
      have hc := plain_ne_slash mode hm c h2
      have ht := ih [a] r1 (by simp only [List.length_cons, List.length_nil] at hl ⊢; omega) hr1
      intro hmem
      rcases List.mem_cons.mp hmem with e | e
      · exact hc e.symm
      · exact ht e
    | c :: a :: b :: rest, hl, h =>
      rw [unescape] at h
      split_ifs at h with h1 h2 h3 h4 h5
      · obtain ⟨r1, hr1, hr⟩ := Option.map_eq_some'.mp h
        rw [← hr]
        have hc := escape_ne_slash mode hm a b h3 h4
        have ht := ih rest r1 (by simp only [List.length_cons] at hl; omega) hr1
        intro hmem
        rcases List.mem_cons.mp hmem with e | e
        · exact hc e.symm
        · exact ht e
      · obtain ⟨r1, hr1, hr⟩ := Option.map_eq_some'.mp h
        rw [← hr]
        have hc := plain_ne_slash mode hm c h5
        have ht := ih (a :: b :: rest) r1 (by simp only [List.length_cons] at hl ⊢; omega) hr1
        intro hmem
        rcases List.mem_cons.mp hmem with e | e
        · exact hc e.symm
        · exact ht e

theorem unescape_host_no_slash (mode : Encoding)
    (hm : mode = .encodeHost ∨ mode = .encodeZone) (s r : GoString)
    (h : unescape mode s = some r) : '/' ∉ r :=
  unescape_no_slash mode hm s.length s r (Nat.le_refl _) h

theorem unescape_path_slash (t r : GoString)
    (h : unescape .encodePath ('/' :: t) = some r) : ∃ r1, r = '/' :: r1 := by
  have hne : ¬ ('/' = '%') := by decide
  have hm : ¬ ((Encoding.encodePath = .encodeHost ∨ Encoding.encodePath = .encodeZone) ∧
      '/' ≠ '+' ∧ '/'.toNat < 0x80 ∧ shouldEscapeHost '/' = true) := by decide
  match t, h with
  | [], h =>
    rw [unescape, if_neg hne, if_neg hm] at h
    injection h with h
    exact ⟨[], h.symm⟩
  | [a], h =>
    rw [unescape, if_neg hne, if_neg hm] at h
    obtain ⟨r1, _, hr⟩ := Option.map_eq_some'.mp h
    exact ⟨r1, hr.symm⟩
  | a :: b :: rest, h =>
    rw [unescape, if_neg hne, if_neg hm] at h
    obtain ⟨r1, _, hr⟩ := Option.map_eq_some'.mp h
    exact ⟨r1, hr.symm⟩

theorem hasPrefix_slash (s : GoString) (h : hasPrefix s "/" = true) : ∃ r, s = '/' :: r := by
  cases s with
  | nil => exact absurd h (by decide)
  | cons c cs =>
    have h2 : (c == '/' && hasPrefix cs []) = true := h
    have h3 : c = '/' := by
      simpa [hasPrefix] using h2
    exact ⟨cs, by rw [h3]⟩

theorem indexOf_drop (sub : GoString) (s : GoString) (i : Nat)
    (h : indexOf sub s = some i) : hasPrefix (s.drop i) sub = true := by
  induction s generalizing i with
  | nil =>
    rw [indexOf] at h
    split_ifs at h with h1
    injection h with h
    rw [← h]
    cases sub with
    | nil => rfl
    | cons a b => simp at h1
  | cons c cs ih =>
    rw [indexOf] at h
    split_ifs at h with h1
    · injection h with h
      rw [← h]
      exact h1
    · obtain ⟨j, hj, hi⟩ := Option.map_eq_some'.mp h
      rw [← hi]
      exact ih j hj

theorem parseHost_no_slash (host r : GoString) (h : parseHost host = some r) :
    '/' ∉ r := by
  unfold parseHost at h
  split_ifs at h with h1
  · split at h
    · cases h
    · split_ifs at h with h2
      split at h
      · split at h
        · rename_i host1 host2 host3 e1 e2 e3
          injection h with h
          rw [← h]
          have n1 := unescape_host_no_slash _ (Or.inl rfl) _ _ e1
          have n2 := unescape_host_no_slash _ (Or.inr rfl) _ _ e2
          have n3 := unescape_host_no_slash _ (Or.inl rfl) _ _ e3
          simp only [List.mem_append, not_or]
          exact ⟨⟨n1, n2⟩, n3⟩
        · cases h
      · exact unescape_host_no_slash _ (Or.inl rfl) _ _ h
  · split at h
    · split_ifs at h with h2
      exact unescape_host_no_slash _ (Or.inl rfl) _ _ h
    · exact unescape_host_no_slash _ (Or.inl rfl) _ _ h

theorem parseAuthority_no_slash (authority r : GoString)
    (h : parseAuthority authority = some r) : '/' ∉ r := by
  unfold parseAuthority at h
  split at h
  · exact parseHost_no_slash _ _ h
  · split at h
    · cases h
    · rename_i host hh
      have hn := parseHost_no_slash _ _ hh
      simp only [] at h
      split_ifs at h with h1
      split at h
      · obtain ⟨_, _, e⟩ := Option.map_eq_some'.mp h
        rw [← e]
        exact hn
      · split at h
        · injection h with h
          rw [← h]
          exact hn
        · cases h

theorem parse_cases (x : GoString) (u : URL) (h : parse x = some u) :
    x = "*" ∨
    (∃ s0 r0, getScheme x = some (s0, r0) ∧ u.Scheme = toLower s0 ∧
      '/' ∉ u.Host ∧ (u.Scheme ≠ [] → u.Path = [] ∨ ∃ r, u.Path = '/' :: r)) := by
  unfold parse at h
  split_ifs at h with h1 h2
  · exact Or.inl h2
  · right
    split at h
    · cases h
    · rename_i s0 r0 hg
      refine ⟨s0, r0, hg, ?_⟩
      simp only [] at h
      split_ifs at h with h3 h4 h5
      · injection h with h
        rw [← h]
        exact ⟨rfl, by simp, fun _ => Or.inl rfl⟩
      · split at h
        · cases h
        · rename_i host hh
          obtain ⟨path, hp, e⟩ := Option.map_eq_some'.mp h
          rw [← e]
          refine ⟨rfl, parseAuthority_no_slash _ _ hh, fun _ => ?_⟩
          simp only []
          split at hp
          · rename_i i hi
            obtain ⟨r1, hr1⟩ := hasPrefix_slash _ (indexOf_drop _ _ _ hi)
            rw [hr1] at hp
            exact Or.inr (unescape_path_slash _ _ hp)
          · rw [unescape] at hp
            injection hp with hp
            exact Or.inl hp.symm
      · obtain ⟨path, hp, e⟩ := Option.map_eq_some'.mp h
        rw [← e]
        refine ⟨rfl, by simp, fun hs => ?_⟩
        simp only [] at hs ⊢
        have hpre : hasPrefix (match cut '?' r0 with
            | some (r, _) => r
            | none => r0) "/" = true := by
          by_contra hc
          exact h3 ⟨hc, hs⟩
        obtain ⟨r1, hr1⟩ := hasPrefix_slash _ hpre
        rw [hr1] at hp
        exact Or.inr (unescape_path_slash _ _ hp)

theorem hasPrefix_append (p s : GoString) (h : hasPrefix s p = true) :
    ∃ t, s = p ++ t := by
  induction p generalizing s with
  | nil => exact ⟨s, rfl⟩
  | cons a p ih =>
    cases s with
    | nil => exact absurd h (by simp [hasPrefix])
    | cons c cs =>
      have h2 : (c == a && hasPrefix cs p) = true := h
      simp only [Bool.and_eq_true, beq_iff_eq] at h2
      obtain ⟨t, ht⟩ := ih cs h2.2
      exact ⟨t, by rw [h2.1, ht, List.cons_append]⟩

theorem cut_append_of_not_mem (sep : Char) (p t : GoString) (hp : sep ∉ p) :
    cut sep (p ++ t) = (cut sep t).map fun q => (p ++ q.1, q.2) := by
  induction p with
  | nil =>
    rw [List.nil_append]
    cases cut sep t <;> rfl
  | cons c cs ih =>
    have hne : ¬ c = sep := fun e => hp (by rw [e]; exact List.mem_cons_self _ _)
    have hcs : sep ∉ cs := fun e => hp (List.mem_cons_of_mem _ e)
    rw [List.cons_append, cut_cons, if_neg hne, ih hcs]
    cases cut sep t <;> rfl

theorem getScheme_http (t : GoString) :
    getScheme ("http://" ++ t) = some (("http" : GoString), ("//" : GoString) ++ t) := by
  rfl

theorem getScheme_https (t : GoString) :
    getScheme ("https://" ++ t) = some (("https" : GoString), ("//" : GoString) ++ t) := by
  rfl

theorem urlParse_parse (raw : GoString) (u : URL) (p : GoString) (hp : '#' ∉ p)
    (hraw : ∃ t, raw = p ++ t) (h : urlParse raw = some u) :
    ∃ t, parse (p ++ t) = some u := by
  obtain ⟨t, ht⟩ := hraw
  unfold urlParse at h
  rw [ht, cut_append_of_not_mem '#' p t hp] at h
  cases hc : cut '#' t with
  | none =>
    rw [hc] at h
    exact ⟨t, h⟩
  | some q =>
    obtain ⟨q1, q2⟩ := q
    rw [hc] at h
    simp only [Option.map_some'] at h
    cases hq : parse (p ++ q1) with
    | none =>
      rw [hq] at h
      cases h
    | some url =>
      rw [hq] at h
      simp only [] at h
      split_ifs at h with hf
      · exact ⟨q1, by rw [hq, h]⟩
      · obtain ⟨_, _, e⟩ := Option.map_eq_some'.mp h
        exact ⟨q1, by rw [hq, e]⟩

theorem urlParse_shape (raw : GoString) (u : URL) (h : urlParse raw = some u) :
    (hasPrefix raw "http://" = true → u.Scheme = "http" ∧ '/' ∉ u.Host ∧
      (u.Path = [] ∨ ∃ r, u.Path = '/' :: r)) ∧
    (hasPrefix raw "https://" = true → u.Scheme = "https" ∧ '/' ∉ u.Host ∧
      (u.Path = [] ∨ ∃ r, u.Path = '/' :: r)) := by
  constructor
  · intro hp
    obtain ⟨t, ht⟩ := urlParse_parse raw u "http://" (by decide)
      (hasPrefix_append _ _ hp) h
    rcases parse_cases _ _ ht with hx | ⟨s0, r0, hg, hs, hh, hpath⟩
    · exact absurd (congrArg List.head? hx) (by simp)
    · rw [getScheme_http] at hg
      injection hg with hg
      injection hg with hg1 hg2
      have hsch : u.Scheme = "http" := by
        rw [hs, ← hg1]
        decide
      refine ⟨hsch, hh, hpath ?_⟩
      rw [hsch]
      decide
  · intro hp
    obtain ⟨t, ht⟩ := urlParse_parse raw u "https://" (by decide)
      (hasPrefix_append _ _ hp) h
    rcases parse_cases _ _ ht with hx | ⟨s0, r0, hg, hs, hh, hpath⟩
    · exact absurd (congrArg List.head? hx) (by simp)
    · rw [getScheme_https] at hg
      injection hg with hg
      injection hg with hg1 hg2
      have hsch : u.Scheme = "https" := by
        rw [hs, ← hg1]
        decide
      refine ⟨hsch, hh, hpath ?_⟩
      rw [hsch]
      decide

theorem mem_of_hasPrefix (s sub : GoString) (h : hasPrefix s sub = true) :
    ∀ c ∈ sub, c ∈ s := by
  obtain ⟨t, ht⟩ := hasPrefix_append sub s h
  intro c hc
  rw [ht]
  exact List.mem_append_left _ hc

theorem mem_of_contains (s sub : GoString) (h : contains s sub = true) :
    ∀ c ∈ sub, c ∈ s := by
  induction s with
  | nil =>
    rw [contains] at h
    cases sub with
    | nil => simp
    | cons a b => simp at h
  | cons d ds ih =>
    rw [contains, Bool.or_eq_true] at h
    rcases h with h | h
    · exact mem_of_hasPrefix _ _ h
    · intro c hc
      exact List.mem_cons_of_mem _ (ih h c hc)

theorem contains_scheme_mark (s : GoString) (h : '/' ∉ s) : contains s "://" = false := by
  cases hc : contains s "://" with
  | false => rfl
  | true => exact absurd (mem_of_contains s _ hc '/' (by decide)) h

namespace Gemini

/-- C12: for every endpoint value that begins with `http://` or `https://`, the target
of `parseHTTPSettings` (with the model of `net/url.Parse`) has a host without `/`, hence
without `://`, and a path that begins with `/`; when the URL does not parse the target
is the default one. -/
theorem parseHTTPSettings_normalized (env : Env)
    (hp : hasPrefix (rawEndpoint env) "http://" = true ∨
      hasPrefix (rawEndpoint env) "https://" = true) :
    '/' ∉ (parseHTTPSettings urlParse env).endpoint ∧
    contains (parseHTTPSettings urlParse env).endpoint "://" = false ∧
    (∃ r, (parseHTTPSettings urlParse env).path = '/' :: r) ∧
    (urlParse (rawEndpoint env) = none →
      parseHTTPSettings urlParse env = ⟨"otlp.arize.com", "/v1/traces", false⟩) := by
  have hraw : rawEndpoint env ≠ [] := by
    intro h
    rw [h] at hp
    rcases hp with h | h <;> cases h
  have hmain : '/' ∉ (parseHTTPSettings urlParse env).endpoint ∧
      (∃ r, (parseHTTPSettings urlParse env).path = '/' :: r) ∧
      (urlParse (rawEndpoint env) = none →
        parseHTTPSettings urlParse env = ⟨"otlp.arize.com", "/v1/traces", false⟩) := by
    unfold parseHTTPSettings
    simp only []
    rw [if_neg hraw, if_pos hp]
    cases hu : urlParse (rawEndpoint env) with
    | none =>
      have hdef : '/' ∉ ("otlp.arize.com" : GoString) := by decide
      exact ⟨hdef, ⟨_, rfl⟩, fun _ => rfl⟩
    | some u =>
      have hshape := urlParse_shape _ u hu
      have hboth : '/' ∉ u.Host ∧ (u.Path = [] ∨ ∃ r, u.Path = '/' :: r) := by
        rcases hp with h | h
        · exact (hshape.1 h).2
        · exact (hshape.2 h).2
      refine ⟨hboth.1, ?_, fun h => by cases h⟩
      simp only []
      by_cases hd : u.Path = [] ∨ u.Path = "/"
      · rw [if_pos hd]
        exact ⟨_, rfl⟩
      · rw [if_neg hd]
        rcases hboth.2 with h | h
        · exact absurd (Or.inl h) hd
        · exact h
  exact ⟨hmain.1, contains_scheme_mark _ hmain.1, hmain.2⟩

/-- C12, witness: the endpoint `https://collector.example.com/custom/path`. -/
theorem parseHTTPSettings_normalized_witness :
    hasPrefix (rawEndpoint (mkEnv [("OTEL_EXPORTER_OTLP_ENDPOINT",
      "https://collector.example.com/custom/path")])) "https://" = true ∧
    contains (parseHTTPSettings urlParse (mkEnv [("OTEL_EXPORTER_OTLP_ENDPOINT",
      "https://collector.example.com/custom/path")])).endpoint "://" = false :=
  ⟨by decide,
   (parseHTTPSettings_normalized (mkEnv [("OTEL_EXPORTER_OTLP_ENDPOINT",
      "https://collector.example.com/custom/path")]) (Or.inr (by decide))).2.1⟩

end Gemini

end Otel
